import Mathlib

/-!
Verification development for a minimal SOCKS5 proxy (handshake engine,
relay engine, connection acceptor).  The Rust sources are shallowly
embedded: bytes are `Nat` (< 256 where it matters), a TCP read stream is
a list of nonempty chunks (each `read` call drains the head chunk up to
the requested capacity), and the two exact-read primitives, the handshake
state machine and the relay engine's observable effects are translated
function by function from `src/errors.rs`, `src/ioutil.rs` and
`src/server.rs`.
-/

/-- Kinds of `std::io::Error` that the embedded code can produce or that
claims mention. -/
inductive IOErrorKind where
  | unexpectedEof
  | connectionRefused
  | timedOut
  | unreachable
  | notConnected
  | other (code : Nat)
deriving DecidableEq, Repr

/-- The error enum of `src/errors.rs` (`Socks5Error`); the `IOError`
variant wraps a `std::io::Error`. -/
inductive Socks5Error where
  | UnsupportedVersion
  | UnexpectedEOF
  | ExtraDataRead
  | UnsupportedCommand
  | UnrecognizedAddrType
  | ParseAddrError
  | IOError (k : IOErrorKind)
deriving DecidableEq, Repr

/-- A client input stream: the list of byte chunks successive `read`
calls can deliver before the peer closes.  A well-formed stream has no
empty chunk (a real `read` returns 0 only at end of stream). -/
abbrev Chunks := List (List Nat)

/-- All chunks are nonempty: `read` on a live stream delivers at least
one byte. -/
def ChunksWF (s : Chunks) : Prop := ∀ c ∈ s, c ≠ []

instance : DecidablePred ChunksWF := fun s =>
  inferInstanceAs (Decidable (∀ c ∈ s, c ≠ []))

/-- One `stream.read(&mut buf[nr..])` call with capacity `cap`: takes up
to `cap` bytes from the head chunk, leaving the unread remainder of the
chunk at the front.  Returns the bytes delivered and the stream state
after the call; an empty result models the 0-return (end of stream, or a
zero-capacity buffer). -/
def readOnce (s : Chunks) (cap : Nat) : List Nat × Chunks :=
  match s with
  | [] => ([], [])
  | c :: rest =>
    let t := c.take cap
    let r := c.drop cap
    (t, if r = [] then rest else r :: rest)

/-- The `while nr < count` loop of `_read_n_bytes` in `src/ioutil.rs`,
with the buffer length explicit (`read` is called on `buf[nr..]`, so the
per-call capacity is `buflen - nr`).  `fuel` is an upper bound on the
iteration count (each iteration delivers at least one byte or breaks);
`count + 1` always suffices.  Returns `(nr, bytes read, stream rest)`. -/
def readLoopF : Nat → Chunks → Nat → Nat → Nat → List Nat → Nat × List Nat × Chunks
  | 0, s, _, _, nr, acc => (nr, acc, s)
  | fuel + 1, s, buflen, count, nr, acc =>
    if nr < count then
      let p := readOnce s (buflen - nr)
      if p.1.length = 0 then (nr, acc, p.2)
      else readLoopF fuel p.2 buflen count (nr + p.1.length) (acc ++ p.1)
    else (nr, acc, s)

/-- `_read_n_bytes(stream, buf, count)` from `src/ioutil.rs` (called as
`read_n_bytes` from `src/server.rs`), for a buffer of length `buflen`:
returns `Ok` with the bytes read when exactly `count` were obtained,
`ExtraDataRead` when more accumulated, `UnexpectedEOF` when the stream
ended short.  Every handshake call site passes `buflen = count`. -/
def read_n_bytes (s : Chunks) (buflen count : Nat) :
    Except Socks5Error (List Nat) × Chunks :=
  if count = 0 then (.ok [], s)
  else
    let r := readLoopF (count + 1) s buflen count 0 []
    if r.1 = count then (.ok r.2.1, r.2.2)
    else if count < r.1 then (.error .ExtraDataRead, r.2.2)
    else (.error .UnexpectedEOF, r.2.2)

/-- The async-std `ReadExt::read_exact` used directly by
`socks5_handshake` for the greeting, the request header, the domain
length byte and the port: fills the buffer greedily and surfaces a short
read as an `io::Error` of kind `UnexpectedEof`, which `?` converts into
`Socks5Error::IOError`. -/
def read_exact_lib (s : Chunks) (count : Nat) :
    Except Socks5Error (List Nat) × Chunks :=
  let r := readLoopF (count + 1) s count count 0 []
  if r.1 = count then (.ok r.2.1, r.2.2)
  else (.error (.IOError .unexpectedEof), r.2.2)

/-! ### Behaviour of the read loop -/

theorem readOnce_fst (c : List Nat) (rest : Chunks) (cap : Nat) :
    (readOnce (c :: rest) cap).1 = c.take cap := rfl

theorem readOnce_snd_flatten (c : List Nat) (rest : Chunks) (cap : Nat) :
    (readOnce (c :: rest) cap).2.flatten = c.drop cap ++ rest.flatten := by
  by_cases h : c.drop cap = [] <;> simp [readOnce, h]

theorem readOnce_wf (s : Chunks) (cap : Nat) (hs : ChunksWF s) :
    ChunksWF (readOnce s cap).2 := by
  cases s with
  | nil => intro c h; simp [readOnce] at h
  | cons c rest =>
    by_cases h : c.drop cap = []
    · simp only [readOnce, h, if_pos]
      intro x hx; exact hs x (List.mem_cons_of_mem _ hx)
    · simp only [readOnce, if_neg h]
      intro x hx
      rcases List.mem_cons.mp hx with h1 | h2
      · rw [h1]; exact h
      · exact hs x (List.mem_cons_of_mem _ h2)

theorem readOnce_len (s : Chunks) (cap : Nat) :
    (readOnce s cap).1.length ≤ cap := by
  cases s with
  | nil => simp [readOnce]
  | cons c rest => simp [readOnce]

theorem readOnce_pos (c : List Nat) (rest : Chunks) (cap : Nat)
    (hc : c ≠ []) (hcap : 0 < cap) :
    0 < (readOnce (c :: rest) cap).1.length := by
  simp [readOnce]
  exact ⟨hcap, List.length_pos.mpr hc⟩

/-- With a buffer of length `count`, the accumulated byte count never
exceeds `count` (so the `nr > count` branch of `_read_n_bytes` is dead).
This needs no well-formedness of the stream. -/
theorem readLoopF_le (fuel : Nat) :
    ∀ (s : Chunks) (count nr : Nat) (acc : List Nat), nr ≤ count →
      (readLoopF fuel s count count nr acc).1 ≤ count := by
  induction fuel with
  | zero => intro s count nr acc h; simpa [readLoopF] using h
  | succ n ih =>
    intro s count nr acc h
    by_cases hlt : nr < count
    · by_cases hz : (readOnce s (count - nr)).1.length = 0
      · simpa [readLoopF, hlt, hz] using h
      · have hle : (readOnce s (count - nr)).1.length ≤ count - nr :=
          readOnce_len s (count - nr)
        have : nr + (readOnce s (count - nr)).1.length ≤ count := by omega
        simpa [readLoopF, hlt, hz] using
          ih (readOnce s (count - nr)).2 count
            (nr + (readOnce s (count - nr)).1.length)
            (acc ++ (readOnce s (count - nr)).1) this
    · simpa [readLoopF, hlt] using h

/-- When the stream holds at least the missing `count - nr` bytes, the
loop fills the buffer exactly: it returns `count`, appends the next
`count - nr` bytes of the flattened stream, and leaves the rest. -/
theorem readLoopF_enough (fuel : Nat) :
    ∀ (s : Chunks) (count nr : Nat) (acc : List Nat),
      ChunksWF s → nr ≤ count → count - nr ≤ s.flatten.length →
      count - nr < fuel →
      ∃ s', readLoopF fuel s count count nr acc =
          (count, acc ++ s.flatten.take (count - nr), s') ∧
        s'.flatten = s.flatten.drop (count - nr) ∧ ChunksWF s' := by
  induction fuel with
  | zero => intro s count nr acc _ _ _ hf; omega
  | succ n ih =>
    intro s count nr acc hwf hle hav hf
    by_cases hlt : nr < count
    · match s with
      | [] =>
        exfalso; simp at hav; omega
      | c :: rest =>
        have hc : c ≠ [] := hwf c (List.mem_cons_self c rest)
        have hcap : 0 < count - nr := by omega
        have hpos := readOnce_pos c rest (count - nr) hc hcap
        have hz : ¬ (readOnce (c :: rest) (count - nr)).1.length = 0 := by omega
        set p := readOnce (c :: rest) (count - nr) with hp
        have hfst : p.1 = c.take (count - nr) := readOnce_fst c rest (count - nr)
        have hsnd : p.2.flatten = c.drop (count - nr) ++ rest.flatten :=
          readOnce_snd_flatten c rest (count - nr)
        have hlen : p.1.length ≤ count - nr := by
          rw [hfst, List.length_take]; omega
        have hlenc : p.1.length ≤ c.length := by
          rw [hfst, List.length_take]; omega
        have hflat : (c :: rest).flatten = c ++ rest.flatten := by simp
        have h1 : (c :: rest).flatten.take p.1.length = p.1 := by
          rw [hflat, List.take_append_of_le_length hlenc, hfst]
          rw [List.length_take]
          rcases Nat.le_total (count - nr) c.length with hcase | hcase
          · rw [Nat.min_eq_left hcase]
          · rw [Nat.min_eq_right hcase, List.take_of_length_le hcase,
              List.take_of_length_le le_rfl]
        have h2 : (c :: rest).flatten.drop p.1.length = p.2.flatten := by
          rw [hflat, List.drop_append_of_le_length hlenc, hsnd, hfst]
          rw [List.length_take]
          rcases Nat.le_total (count - nr) c.length with hcase | hcase
          · rw [Nat.min_eq_left hcase]
          · rw [Nat.min_eq_right hcase,
              List.drop_eq_nil_of_le hcase, List.drop_eq_nil_of_le le_rfl]
        have hle' : nr + p.1.length ≤ count := by omega
        have hav' : count - (nr + p.1.length) ≤ p.2.flatten.length := by
          have hjl : p.2.flatten.length =
              (c :: rest).flatten.length - p.1.length := by
            rw [← h2, List.length_drop]
          omega
        have hf' : count - (nr + p.1.length) < n := by omega
        obtain ⟨s', heq, hj, hwfs⟩ :=
          ih p.2 count (nr + p.1.length) (acc ++ p.1)
            (readOnce_wf _ _ hwf) hle' hav' hf'
        refine ⟨s', ?_, ?_, hwfs⟩
        · rw [readLoopF]
          simp only [hlt, if_true, ← hp, hz, if_false, heq]
          have h3 : count - nr = p.1.length + (count - (nr + p.1.length)) := by
            omega
          have htake : (c :: rest).flatten.take (count - nr) =
              p.1 ++ p.2.flatten.take (count - (nr + p.1.length)) := by
            rw [h3, List.take_add, h1, h2]
          rw [htake, List.append_assoc]
        · rw [hj, ← h2, List.drop_drop]
          congr 1
          omega
    · have heq : nr = count := by omega
      refine ⟨s, ?_, ?_, hwf⟩
      · rw [readLoopF]
        simp [hlt, heq]
      · simp [heq]

/-- When the stream ends before `count - nr` further bytes arrive, the
loop drains it completely and stops short: it returns `nr` plus the
total available bytes, which is strictly less than `count`. -/
theorem readLoopF_short (fuel : Nat) :
    ∀ (s : Chunks) (count nr : Nat) (acc : List Nat),
      ChunksWF s → s.flatten.length < count - nr → count - nr < fuel →
      readLoopF fuel s count count nr acc =
        (nr + s.flatten.length, acc ++ s.flatten, []) := by
  induction fuel with
  | zero => intro s count nr acc _ _ hf; omega
  | succ n ih =>
    intro s count nr acc hwf hav hf
    have hlt : nr < count := by omega
    match s with
    | [] =>
      rw [readLoopF]
      simp [readLoopF, hlt, readOnce]
    | c :: rest =>
      have hc : c ≠ [] := hwf c (List.mem_cons_self c rest)
      have hclen : 0 < c.length := List.length_pos.mpr hc
      have hcap : 0 < count - nr := by omega
      have hjlen : (c :: rest).flatten.length = c.length + rest.flatten.length := by
        simp
      have hcle : c.length ≤ count - nr := by omega
      have htake : c.take (count - nr) = c := List.take_of_length_le hcle
      have hdrop : c.drop (count - nr) = [] := by
        apply List.drop_eq_nil_of_le; omega
      have hz : ¬ (readOnce (c :: rest) (count - nr)).1.length = 0 := by
        have := readOnce_pos c rest (count - nr) hc hcap
        omega
      rw [readLoopF]
      simp only [hlt, if_true, hz, if_false]
      have hro1 : (readOnce (c :: rest) (count - nr)).1 = c := by
        rw [readOnce_fst, htake]
      have hro2 : (readOnce (c :: rest) (count - nr)).2 = rest := by
        simp [readOnce, hdrop]
      rw [hro1, hro2]
      have hwf' : ChunksWF rest := fun x hx => hwf x (List.mem_cons_of_mem _ hx)
      have hav' : rest.flatten.length < count - (nr + c.length) := by omega
      have hf' : count - (nr + c.length) < n := by omega
      rw [ih rest count (nr + c.length) (acc ++ c) hwf' hav' hf']
      rw [Prod.mk.injEq, Prod.mk.injEq]
      refine ⟨by omega, by simp, rfl⟩

/-! ### Exact-read contracts -/

/-- `_read_n_bytes` with `buflen = count` on a stream holding enough
bytes: succeeds with exactly the first `count` bytes. -/
theorem read_n_bytes_ok (s : Chunks) (count : Nat) (hwf : ChunksWF s)
    (hav : count ≤ s.flatten.length) :
    ∃ s', read_n_bytes s count count = (.ok (s.flatten.take count), s') ∧
      s'.flatten = s.flatten.drop count ∧ ChunksWF s' := by
  by_cases h0 : count = 0
  · exact ⟨s, by simp [read_n_bytes, h0], by simp [h0], hwf⟩
  · obtain ⟨s', heq, hj, hwfs⟩ :=
      readLoopF_enough (count + 1) s count 0 [] hwf (Nat.zero_le _)
        (by simpa using hav) (by omega)
    refine ⟨s', ?_, by simpa using hj, hwfs⟩
    rw [read_n_bytes]
    simp only [h0, if_false, heq]
    simp

/-- `_read_n_bytes` with `buflen = count` on a stream that closes short:
fails with `UnexpectedEOF` (never any other variant). -/
theorem read_n_bytes_eof (s : Chunks) (count : Nat) (hwf : ChunksWF s)
    (hav : s.flatten.length < count) :
    read_n_bytes s count count = (.error .UnexpectedEOF, []) := by
  have h0 : ¬ count = 0 := by omega
  have heq := readLoopF_short (count + 1) s count 0 [] hwf (by omega) (by omega)
  rw [read_n_bytes]
  simp only [h0, if_false, heq]
  have h1 : ¬ (0 + s.flatten.length = count) := by omega
  have h2 : ¬ (count < 0 + s.flatten.length) := by omega
  simp only [h1, if_false, h2]

/-- The library `read_exact` on a stream holding enough bytes. -/
theorem read_exact_lib_ok (s : Chunks) (count : Nat) (hwf : ChunksWF s)
    (hav : count ≤ s.flatten.length) :
    ∃ s', read_exact_lib s count = (.ok (s.flatten.take count), s') ∧
      s'.flatten = s.flatten.drop count ∧ ChunksWF s' := by
  obtain ⟨s', heq, hj, hwfs⟩ :=
    readLoopF_enough (count + 1) s count 0 [] hwf (Nat.zero_le _)
      (by simpa using hav) (by omega)
  refine ⟨s', ?_, by simpa using hj, hwfs⟩
  rw [read_exact_lib]
  simp only [heq]
  simp

/-- The library `read_exact` on a stream that closes short: the error is
an `io::Error` of kind unexpected-EOF wrapped as `Socks5Error::IOError`,
not the repo's own `UnexpectedEOF` variant. -/
theorem read_exact_lib_eof (s : Chunks) (count : Nat) (hwf : ChunksWF s)
    (hav : s.flatten.length < count) :
    read_exact_lib s count = (.error (.IOError .unexpectedEof), []) := by
  have heq := readLoopF_short (count + 1) s count 0 [] hwf (by omega) (by omega)
  rw [read_exact_lib]
  simp only [heq]
  have h1 : ¬ (0 + s.flatten.length = count) := by omega
  simp only [h1, if_false]

/-! ### Decimal and hexadecimal rendering (Rust `Display` for integers,
`Ipv4Addr` and `Ipv6Addr`), modelled from the Rust standard library. -/

/-- Big-endian digits of `n` in base `base`, by fuel-bounded division
(`fuel ≥ n` suffices); empty for `n = 0`. -/
def digitsBEAux (base : Nat) : Nat → Nat → List Nat
  | 0, _ => []
  | fuel + 1, n => if n = 0 then [] else digitsBEAux base fuel (n / base) ++ [n % base]

/-- Big-endian digit list of `n` (canonical: no leading zeros, and `[0]`
for zero itself), as Rust integer formatting produces. -/
def natDigitsBE (base n : Nat) : List Nat :=
  if n = 0 then [0] else digitsBEAux base (n + 1) n

def decDigitChar (d : Nat) : Char := Char.ofNat (48 + d)

/-- Lowercase hex digit, as Rust's `LowerHex` formatting uses. -/
def hexDigitChar (d : Nat) : Char :=
  if d < 10 then Char.ofNat (48 + d) else Char.ofNat (87 + d)

/-- Rust `u16`/`u8` decimal `Display`. -/
def natDecChars (n : Nat) : List Char := (natDigitsBE 10 n).map decDigitChar

/-- Rust `u16` `LowerHex` (used for IPv6 groups). -/
def natHexChars (n : Nat) : List Char := (natDigitsBE 16 n).map hexDigitChar

/-- Rust `Ipv4Addr` `Display`: the four octets in decimal, dot-separated. -/
def formatIpv4 (oc : List Nat) : List Char :=
  natDecChars (oc.getD 0 0) ++ '.' :: natDecChars (oc.getD 1 0) ++
    '.' :: natDecChars (oc.getD 2 0) ++ '.' :: natDecChars (oc.getD 3 0)

/-- The 8 16-bit segments of a 16-byte IPv6 address (big-endian pairs),
as `Ipv6Addr::from([u8; 16]).segments()` yields. -/
def segmentsOf : List Nat → List Nat
  | hi :: lo :: t => (hi * 256 + lo) :: segmentsOf t
  | _ => []

/-- The scan of Rust's `Ipv6Addr` `Display` for the longest (first on
ties) run of zero segments: state is the position, the current run and
the longest run so far, each as `(start, length)`. -/
def zeroSpanLoop : List Nat → Nat → Nat × Nat → Nat × Nat → Nat × Nat
  | [], _, _, longest => longest
  | seg :: rest, i, current, longest =>
    if seg = 0 then
      let cur := (if current.2 = 0 then i else current.1, current.2 + 1)
      let lng := if longest.2 < cur.2 then cur else longest
      zeroSpanLoop rest (i + 1) cur lng
    else zeroSpanLoop rest (i + 1) (0, 0) longest

/-- `fmt_subslice` tail: each further group preceded by `':'`. -/
def renderTail : List Nat → List Char
  | [] => []
  | g :: gs => ':' :: (natHexChars g ++ renderTail gs)

/-- Rust's `fmt_subslice`: hex groups joined by `':'`. -/
def fmtSubslice : List Nat → List Char
  | [] => []
  | g :: gs => natHexChars g ++ renderTail gs

/-- Rust `Ipv6Addr` `Display` on the 8 segments: the IPv4-mapped special
case prints `::ffff:a.b.c.d`; otherwise the longest run of at least two
zero segments is compressed to `::`. -/
def formatIpv6 (segs : List Nat) : List Char :=
  if segs.take 6 = [0, 0, 0, 0, 0, 0xffff] then
    ':' :: ':' :: 'f' :: 'f' :: 'f' :: 'f' :: ':' ::
      formatIpv4 [segs.getD 6 0 / 256, segs.getD 6 0 % 256,
        segs.getD 7 0 / 256, segs.getD 7 0 % 256]
  else
    let z := zeroSpanLoop segs 0 (0, 0) (0, 0)
    if 1 < z.2 then
      fmtSubslice (segs.take z.1) ++ ':' :: ':' :: fmtSubslice (segs.drop (z.1 + z.2))
    else fmtSubslice segs

/-- Validity check of `String::from_utf8` (RFC 3629: no overlongs, no
surrogates, max U+10FFFF), decoding the byte list to characters. -/
def utf8Decode : List Nat → Option (List Char)
  | [] => some []
  | b :: rest =>
    if b < 0x80 then (utf8Decode rest).map (fun t => Char.ofNat b :: t)
    else if b < 0xC0 then none
    else if b < 0xE0 then
      match rest with
      | c1 :: rest1 =>
        if 0x80 ≤ c1 ∧ c1 < 0xC0 then
          let v := (b - 0xC0) * 64 + (c1 - 0x80)
          if 0x80 ≤ v then (utf8Decode rest1).map (fun t => Char.ofNat v :: t)
          else none
        else none
      | [] => none
    else if b < 0xF0 then
      match rest with
      | c1 :: c2 :: rest2 =>
        if (0x80 ≤ c1 ∧ c1 < 0xC0) ∧ (0x80 ≤ c2 ∧ c2 < 0xC0) then
          let v := (b - 0xE0) * 4096 + (c1 - 0x80) * 64 + (c2 - 0x80)
          if 0x800 ≤ v ∧ (v < 0xD800 ∨ 0xE000 ≤ v) then
            (utf8Decode rest2).map (fun t => Char.ofNat v :: t)
          else none
        else none
      | _ => none
    else if b < 0xF8 then
      match rest with
      | c1 :: c2 :: c3 :: rest3 =>
        if (0x80 ≤ c1 ∧ c1 < 0xC0) ∧ (0x80 ≤ c2 ∧ c2 < 0xC0) ∧
            (0x80 ≤ c3 ∧ c3 < 0xC0) then
          let v := (b - 0xF0) * 262144 + (c1 - 0x80) * 4096 +
            (c2 - 0x80) * 64 + (c3 - 0x80)
          if 0x10000 ≤ v ∧ v ≤ 0x10FFFF then
            (utf8Decode rest3).map (fun t => Char.ofNat v :: t)
          else none
        else none
      | _ => none
    else none

/-! ### The handshake engine (`socks5_handshake` in `src/server.rs`) -/

instance {ε α : Type} [DecidableEq ε] [DecidableEq α] :
    DecidableEq (Except ε α) := fun a b =>
  match a, b with
  | .error e, .error f =>
    if h : e = f then isTrue (by rw [h]) else
      isFalse (by intro hh; cases hh; exact h rfl)
  | .ok x, .ok y =>
    if h : x = y then isTrue (by rw [h]) else
      isFalse (by intro hh; cases hh; exact h rfl)
  | .error _, .ok _ => isFalse (by intro hh; cases hh)
  | .ok _, .error _ => isFalse (by intro hh; cases hh)

/-- Outcome of a handshake run: the `Result<String, Socks5Error>` value
(the target as a character list), the bytes the handshake wrote to the
client, and the unread remainder of the client stream. -/
structure HSOut where
  result : Except Socks5Error (List Char)
  written : List Nat
  rest : Chunks
deriving Repr, DecidableEq

/-- Address-parsing step of the handshake: the `match buf[3]` in
`socks5_handshake`.  `TYP_IPV4`/`TYP_IPV6` read the address bytes with
the repo's `read_n_bytes` and render the host exactly as
`Ipv4Addr::from(..).to_string()` / `Ipv6Addr::from(..).to_string()`;
`TYP_DOMAIN` reads a length byte with the library `read_exact`, then the
name with `read_n_bytes`, then validates UTF-8; any other type fails
with `UnrecognizedAddrType`. -/
def hsReadAddr (atyp : Nat) (s : Chunks) : Except Socks5Error (List Char) × Chunks :=
  match atyp with
  | 1 =>
    match read_n_bytes s 4 4 with
    | (.error e, s1) => (.error e, s1)
    | (.ok a, s1) =>
      if a.length = 4 then (.ok (formatIpv4 a), s1) else (.error .ParseAddrError, s1)
  | 3 =>
    match read_exact_lib s 1 with
    | (.error e, s1) => (.error e, s1)
    | (.ok lb, s1) =>
      let len := lb.getD 0 0
      match read_n_bytes s1 len len with
      | (.error e, s2) => (.error e, s2)
      | (.ok d, s2) =>
        match utf8Decode d with
        | some host => (.ok host, s2)
        | none => (.error .ParseAddrError, s2)
  | 4 =>
    match read_n_bytes s 16 16 with
    | (.error e, s1) => (.error e, s1)
    | (.ok a, s1) =>
      if a.length = 16 then (.ok (formatIpv6 (segmentsOf a)), s1)
      else (.error .ParseAddrError, s1)
  | _ => (.error .UnrecognizedAddrType, s)

/-- Port step: 2 bytes via the library `read_exact`, combined big-endian
(`((buf[0] as u16) << 8) + buf[1] as u16`). -/
def hsReadPort (s : Chunks) : Except Socks5Error Nat × Chunks :=
  match read_exact_lib s 2 with
  | (.error e, s1) => (.error e, s1)
  | (.ok p, s1) => (.ok (p.getD 0 0 * 256 + p.getD 1 0), s1)

/-- Request phase of `socks5_handshake`: the 4-byte header (version,
command, reserved, address type) via the library `read_exact`, the
version and command checks, the address, the port, and the final
`host + ":" + port` target string. -/
def hsRequest (s : Chunks) : Except Socks5Error (List Char) × Chunks :=
  match read_exact_lib s 4 with
  | (.error e, s1) => (.error e, s1)
  | (.ok hd, s1) =>
    if hd.getD 0 0 = 5 then
      if hd.getD 1 0 = 1 then
        match hsReadAddr (hd.getD 3 0) s1 with
        | (.error e, s2) => (.error e, s2)
        | (.ok host, s2) =>
          match hsReadPort s2 with
          | (.error e, s3) => (.error e, s3)
          | (.ok port, s3) => (.ok (host ++ ':' :: natDecChars port), s3)
      else (.error .UnsupportedCommand, s1)
    else (.error .UnsupportedVersion, s1)

/-- `socks5_handshake` from `src/server.rs`: greeting (2 bytes, version
check), method list (`nmethod` bytes, contents discarded), the
unconditional 2-byte method-select reply `[0x05, 0x00]`, then the
request phase. -/
def socks5_handshake (s0 : Chunks) : HSOut :=
  match read_exact_lib s0 2 with
  | (.error e, s1) => ⟨.error e, [], s1⟩
  | (.ok g, s1) =>
    if g.getD 0 0 = 5 then
      let nm := g.getD 1 0
      match read_n_bytes s1 nm nm with
      | (.error e, s2) => ⟨.error e, [], s2⟩
      | (.ok _, s2) =>
        let q := hsRequest s2
        ⟨q.1, [5, 0], q.2⟩
    else ⟨.error .UnsupportedVersion, [], s1⟩

/-! ### Flat characterization of the handshake

The handshake's outcome depends only on the flattened byte sequence of
the client stream, not on how reads chunk it.  `hsFlat` computes that
outcome directly on the byte list. -/

/-- Flat form of the address step. -/
def addrFlat (atyp : Nat) (bs : List Nat) : Except Socks5Error (List Char) × List Nat :=
  match atyp with
  | 1 =>
    if 4 ≤ bs.length then (.ok (formatIpv4 (bs.take 4)), bs.drop 4)
    else (.error .UnexpectedEOF, [])
  | 3 =>
    match bs with
    | [] => (.error (.IOError .unexpectedEof), [])
    | len :: r =>
      if len ≤ r.length then
        match utf8Decode (r.take len) with
        | some host => (.ok host, r.drop len)
        | none => (.error .ParseAddrError, r.drop len)
      else (.error .UnexpectedEOF, [])
  | 4 =>
    if 16 ≤ bs.length then (.ok (formatIpv6 (segmentsOf (bs.take 16))), bs.drop 16)
    else (.error .UnexpectedEOF, [])
  | _ => (.error .UnrecognizedAddrType, bs)

/-- Flat form of the port step. -/
def portFlat (bs : List Nat) : Except Socks5Error Nat × List Nat :=
  match bs with
  | p0 :: p1 :: r => (.ok (p0 * 256 + p1), r)
  | _ => (.error (.IOError .unexpectedEof), [])

/-- Flat form of the request phase. -/
def reqFlat (bs : List Nat) : Except Socks5Error (List Char) × List Nat :=
  match bs with
  | v :: cmd :: _ :: atyp :: r =>
    if v = 5 then
      if cmd = 1 then
        match addrFlat atyp r with
        | (.error e, r2) => (.error e, r2)
        | (.ok host, r2) =>
          match portFlat r2 with
          | (.error e, r3) => (.error e, r3)
          | (.ok port, r3) => (.ok (host ++ ':' :: natDecChars port), r3)
      else (.error .UnsupportedCommand, r)
    else (.error .UnsupportedVersion, r)
  | _ => (.error (.IOError .unexpectedEof), [])

/-- Flat-output record. -/
structure HSFlatOut where
  result : Except Socks5Error (List Char)
  written : List Nat
  rest : List Nat
deriving Repr, DecidableEq

/-- Flat form of the whole handshake. -/
def hsFlat (bs : List Nat) : HSFlatOut :=
  match bs with
  | v :: nm :: r =>
    if v = 5 then
      if nm ≤ r.length then
        let q := reqFlat (r.drop nm)
        ⟨q.1, [5, 0], q.2⟩
      else ⟨.error .UnexpectedEOF, [], []⟩
    else ⟨.error .UnsupportedVersion, [], r⟩
  | _ => ⟨.error (.IOError .unexpectedEof), [], []⟩

theorem chunksWF_nil : ChunksWF [] := by
  intro c h; simp at h

theorem hsReadAddr_flat (atyp : Nat) (s : Chunks) (hwf : ChunksWF s) :
    (hsReadAddr atyp s).1 = (addrFlat atyp s.flatten).1 ∧
    (hsReadAddr atyp s).2.flatten = (addrFlat atyp s.flatten).2 ∧
    ChunksWF (hsReadAddr atyp s).2 := by
  match atyp with
  | 1 =>
    by_cases hav : 4 ≤ s.flatten.length
    · obtain ⟨s', heq, hj, hwfs⟩ := read_n_bytes_ok s 4 hwf hav
      have hlen : (s.flatten.take 4).length = 4 := by
        rw [List.length_take]; omega
      have hres : hsReadAddr 1 s = (.ok (formatIpv4 (s.flatten.take 4)), s') := by
        simp only [hsReadAddr, heq]
        rw [if_pos hlen]
      have hfl : addrFlat 1 s.flatten =
          (.ok (formatIpv4 (s.flatten.take 4)), s.flatten.drop 4) := by
        simp only [addrFlat]
        rw [if_pos hav]
      rw [hres, hfl]
      exact ⟨rfl, by rw [hj], hwfs⟩
    · have heq := read_n_bytes_eof s 4 hwf (by omega)
      have hres : hsReadAddr 1 s = (.error .UnexpectedEOF, []) := by
        simp only [hsReadAddr, heq]
      have hfl : addrFlat 1 s.flatten = (.error .UnexpectedEOF, []) := by
        simp only [addrFlat]
        rw [if_neg hav]
      rw [hres, hfl]
      exact ⟨rfl, rfl, chunksWF_nil⟩
  | 3 =>
    by_cases hav : 1 ≤ s.flatten.length
    · obtain ⟨s1, heq, hj, hwf1⟩ := read_exact_lib_ok s 1 hwf hav
      obtain ⟨len, r, hflat⟩ : ∃ len r, s.flatten = len :: r := by
        match hx : s.flatten with
        | [] => rw [hx] at hav; simp at hav
        | a :: r => exact ⟨a, r, rfl⟩
      have htake : s.flatten.take 1 = [len] := by rw [hflat]; rfl
      have hdrop : s.flatten.drop 1 = r := by rw [hflat]; rfl
      rw [htake] at heq
      rw [hdrop] at hj
      have hgd : ([len] : List Nat).getD 0 0 = len := rfl
      by_cases hav2 : len ≤ r.length
      · obtain ⟨s2, heq2, hj2, hwf2⟩ := read_n_bytes_ok s1 len hwf1 (by rw [hj]; omega)
        rw [hj] at heq2 hj2
        have hres : hsReadAddr 3 s =
            (match utf8Decode (r.take len) with
             | some host => (.ok host, s2)
             | none => (.error .ParseAddrError, s2)) := by
          simp only [hsReadAddr, heq, hgd, heq2]
        have hfl : addrFlat 3 s.flatten =
            (match utf8Decode (r.take len) with
             | some host => (.ok host, r.drop len)
             | none => (.error .ParseAddrError, r.drop len)) := by
          simp only [addrFlat, hflat]
          rw [if_pos hav2]
        rw [hres, hfl]
        match hu : utf8Decode (r.take len) with
        | some host => exact ⟨rfl, by rw [hj2], hwf2⟩
        | none => exact ⟨rfl, by rw [hj2], hwf2⟩
      · have heq2 := read_n_bytes_eof s1 len hwf1 (by rw [hj]; omega)
        have hres : hsReadAddr 3 s = (.error .UnexpectedEOF, []) := by
          simp only [hsReadAddr, heq, hgd, heq2]
        have hfl : addrFlat 3 s.flatten = (.error .UnexpectedEOF, []) := by
          simp only [addrFlat, hflat]
          rw [if_neg hav2]
        rw [hres, hfl]
        exact ⟨rfl, rfl, chunksWF_nil⟩
    · have heq := read_exact_lib_eof s 1 hwf (by omega)
      obtain hflat : s.flatten = [] := by
        match hx : s.flatten with
        | [] => rfl
        | a :: r => rw [hx] at hav; simp at hav
      have hres : hsReadAddr 3 s = (.error (.IOError .unexpectedEof), []) := by
        simp only [hsReadAddr, heq]
      have hfl : addrFlat 3 s.flatten = (.error (.IOError .unexpectedEof), []) := by
        simp only [addrFlat, hflat]
      rw [hres, hfl]
      exact ⟨rfl, rfl, chunksWF_nil⟩
  | 4 =>
    by_cases hav : 16 ≤ s.flatten.length
    · obtain ⟨s', heq, hj, hwfs⟩ := read_n_bytes_ok s 16 hwf hav
      have hlen : (s.flatten.take 16).length = 16 := by
        rw [List.length_take]; omega
      have hres : hsReadAddr 4 s =
          (.ok (formatIpv6 (segmentsOf (s.flatten.take 16))), s') := by
        simp only [hsReadAddr, heq]
        rw [if_pos hlen]
      have hfl : addrFlat 4 s.flatten =
          (.ok (formatIpv6 (segmentsOf (s.flatten.take 16))), s.flatten.drop 16) := by
        simp only [addrFlat]
        rw [if_pos hav]
      rw [hres, hfl]
      exact ⟨rfl, by rw [hj], hwfs⟩
    · have heq := read_n_bytes_eof s 16 hwf (by omega)
      have hres : hsReadAddr 4 s = (.error .UnexpectedEOF, []) := by
        simp only [hsReadAddr, heq]
      have hfl : addrFlat 4 s.flatten = (.error .UnexpectedEOF, []) := by
        simp only [addrFlat]
        rw [if_neg hav]
      rw [hres, hfl]
      exact ⟨rfl, rfl, chunksWF_nil⟩
  | 0 => exact ⟨rfl, rfl, hwf⟩
  | 2 => exact ⟨rfl, rfl, hwf⟩
  | (n + 5) => exact ⟨rfl, rfl, hwf⟩

theorem hsReadPort_flat (s : Chunks) (hwf : ChunksWF s) :
    (hsReadPort s).1 = (portFlat s.flatten).1 ∧
    (hsReadPort s).2.flatten = (portFlat s.flatten).2 ∧
    ChunksWF (hsReadPort s).2 := by
  by_cases hav : 2 ≤ s.flatten.length
  · obtain ⟨s', heq, hj, hwfs⟩ := read_exact_lib_ok s 2 hwf hav
    obtain ⟨p0, p1, r, hflat⟩ : ∃ p0 p1 r, s.flatten = p0 :: p1 :: r := by
      match hx : s.flatten with
      | [] => rw [hx] at hav; simp at hav
      | [a] => rw [hx] at hav; simp at hav
      | a :: b :: r => exact ⟨a, b, r, rfl⟩
    have htake : s.flatten.take 2 = [p0, p1] := by rw [hflat]; rfl
    have hdrop : s.flatten.drop 2 = r := by rw [hflat]; rfl
    rw [htake] at heq
    rw [hdrop] at hj
    simp [hsReadPort, portFlat, heq, hflat, hj, hwfs]
  · have heq := read_exact_lib_eof s 2 hwf (by omega)
    have hflat : s.flatten = [] ∨ ∃ a, s.flatten = [a] := by
      match hx : s.flatten with
      | [] => exact Or.inl rfl
      | [a] => exact Or.inr ⟨a, rfl⟩
      | a :: b :: r => rw [hx] at hav; simp at hav
    rcases hflat with h | ⟨a, h⟩ <;>
      simp [hsReadPort, portFlat, heq, h, ChunksWF]

theorem hsRequest_flat (s : Chunks) (hwf : ChunksWF s) :
    (hsRequest s).1 = (reqFlat s.flatten).1 ∧
    (hsRequest s).2.flatten = (reqFlat s.flatten).2 ∧
    ChunksWF (hsRequest s).2 := by
  by_cases hav : 4 ≤ s.flatten.length
  · obtain ⟨s1, heq, hj, hwf1⟩ := read_exact_lib_ok s 4 hwf hav
    obtain ⟨v, cmd, rsv, atyp, r, hflat⟩ :
        ∃ v cmd rsv atyp r, s.flatten = v :: cmd :: rsv :: atyp :: r := by
      match hx : s.flatten with
      | [] => rw [hx] at hav; simp at hav
      | [a] => rw [hx] at hav; simp at hav
      | [a, b] => rw [hx] at hav; simp at hav
      | [a, b, c] => rw [hx] at hav; simp at hav
      | a :: b :: c :: d :: r => exact ⟨a, b, c, d, r, rfl⟩
    have htake : s.flatten.take 4 = [v, cmd, rsv, atyp] := by rw [hflat]; rfl
    have hdrop : s.flatten.drop 4 = r := by rw [hflat]; rfl
    rw [htake] at heq
    rw [hdrop] at hj
    have hgd0 : ([v, cmd, rsv, atyp] : List Nat).getD 0 0 = v := rfl
    have hgd1 : ([v, cmd, rsv, atyp] : List Nat).getD 1 0 = cmd := rfl
    have hgd3 : ([v, cmd, rsv, atyp] : List Nat).getD 3 0 = atyp := rfl
    by_cases hv : v = 5
    · by_cases hcmd : cmd = 1
      · obtain ⟨ha1, ha2, ha3⟩ := hsReadAddr_flat atyp s1 hwf1
        rw [hj] at ha1 ha2
        have hreq : hsRequest s =
            (match hsReadAddr atyp s1 with
             | (.error e, s2) => (.error e, s2)
             | (.ok host, s2) =>
               match hsReadPort s2 with
               | (.error e, s3) => (.error e, s3)
               | (.ok port, s3) => (.ok (host ++ ':' :: natDecChars port), s3)) := by
          simp only [hsRequest, heq, hgd0, hgd1, hgd3]
          rw [if_pos hv, if_pos hcmd]
        have hfl : reqFlat s.flatten =
            (match addrFlat atyp r with
             | (.error e, r2) => (.error e, r2)
             | (.ok host, r2) =>
               match portFlat r2 with
               | (.error e, r3) => (.error e, r3)
               | (.ok port, r3) => (.ok (host ++ ':' :: natDecChars port), r3)) := by
          simp only [reqFlat, hflat]
          rw [if_pos hv, if_pos hcmd]
        have haddr2 : addrFlat atyp r =
            ((hsReadAddr atyp s1).1, (hsReadAddr atyp s1).2.flatten) := by
          rw [ha1, ha2]
        rw [hreq, hfl, haddr2]
        rcases hres : hsReadAddr atyp s1 with ⟨res, sx⟩
        rw [hres] at ha3
        have ha3x : ChunksWF sx := by simpa using ha3
        cases res with
        | error e => simp [ha3x]
        | ok host =>
          obtain ⟨hp1, hp2, hp3⟩ := hsReadPort_flat sx ha3x
          have hport2 : portFlat sx.flatten =
              ((hsReadPort sx).1, (hsReadPort sx).2.flatten) := by
            rw [hp1, hp2]
          rcases hy : hsReadPort sx with ⟨pres, sy⟩
          rw [hy] at hp3
          have hp3x : ChunksWF sy := by simpa using hp3
          cases pres with
          | error e2 => simp [hport2, hy, hp3x]
          | ok p => simp [hport2, hy, hp3x]
      · have hreq : hsRequest s = (.error .UnsupportedCommand, s1) := by
          simp only [hsRequest, heq, hgd0, hgd1]
          rw [if_pos hv, if_neg hcmd]
        have hfl : reqFlat s.flatten = (.error .UnsupportedCommand, r) := by
          simp only [reqFlat, hflat]
          rw [if_pos hv, if_neg hcmd]
        rw [hreq, hfl]
        exact ⟨rfl, hj, hwf1⟩
    · have hreq : hsRequest s = (.error .UnsupportedVersion, s1) := by
        simp only [hsRequest, heq, hgd0]
        rw [if_neg hv]
      have hfl : reqFlat s.flatten = (.error .UnsupportedVersion, r) := by
        simp only [reqFlat, hflat]
        rw [if_neg hv]
      rw [hreq, hfl]
      exact ⟨rfl, hj, hwf1⟩
  · have heq := read_exact_lib_eof s 4 hwf (by omega)
    have hcases : s.flatten = [] ∨ (∃ a, s.flatten = [a]) ∨
        (∃ a b, s.flatten = [a, b]) ∨ (∃ a b c, s.flatten = [a, b, c]) := by
      match hx : s.flatten with
      | [] => exact Or.inl rfl
      | [a] => exact Or.inr (Or.inl ⟨a, rfl⟩)
      | [a, b] => exact Or.inr (Or.inr (Or.inl ⟨a, b, rfl⟩))
      | [a, b, c] => exact Or.inr (Or.inr (Or.inr ⟨a, b, c, rfl⟩))
      | a :: b :: c :: d :: r => rw [hx] at hav; simp at hav
    rcases hcases with h | ⟨a, h⟩ | ⟨a, b, h⟩ | ⟨a, b, c, h⟩ <;>
      simp [hsRequest, reqFlat, heq, h, ChunksWF]

/-- The handshake outcome is a function of the flattened stream alone:
`socks5_handshake` agrees with `hsFlat` on result, written bytes and
unread remainder, for every well-formed chunking. -/
theorem socks5_handshake_flat (s : Chunks) (hwf : ChunksWF s) :
    (socks5_handshake s).result = (hsFlat s.flatten).result ∧
    (socks5_handshake s).written = (hsFlat s.flatten).written ∧
    (socks5_handshake s).rest.flatten = (hsFlat s.flatten).rest := by
  by_cases hav : 2 ≤ s.flatten.length
  · obtain ⟨s1, heq, hj, hwf1⟩ := read_exact_lib_ok s 2 hwf hav
    obtain ⟨v, nm, r, hflat⟩ : ∃ v nm r, s.flatten = v :: nm :: r := by
      match hx : s.flatten with
      | [] => rw [hx] at hav; simp at hav
      | [a] => rw [hx] at hav; simp at hav
      | a :: b :: r => exact ⟨a, b, r, rfl⟩
    have htake : s.flatten.take 2 = [v, nm] := by rw [hflat]; rfl
    have hdrop : s.flatten.drop 2 = r := by rw [hflat]; rfl
    rw [htake] at heq
    rw [hdrop] at hj
    by_cases hv : v = 5
    · by_cases hav2 : nm ≤ r.length
      · obtain ⟨s2, heq2, hj2, hwf2⟩ := read_n_bytes_ok s1 nm (by exact hwf1)
          (by rw [hj]; omega)
        rw [hj] at hj2
        obtain ⟨hq1, hq2, hq3⟩ := hsRequest_flat s2 hwf2
        rw [hj2] at hq1 hq2
        rw [socks5_handshake]
        simp only [heq, hflat, hsFlat]
        simp [hv, hav2, heq2, hq1, hq2]
      · have heq2 := read_n_bytes_eof s1 nm (by exact hwf1) (by rw [hj]; omega)
        rw [socks5_handshake]
        simp only [heq, hflat, hsFlat]
        simp [hv, hav2, heq2, ChunksWF]
    · rw [socks5_handshake]
      simp only [heq, hflat, hsFlat]
      simp [hv, hj]
  · have heq := read_exact_lib_eof s 2 hwf (by omega)
    have hcases : s.flatten = [] ∨ (∃ a, s.flatten = [a]) := by
      match hx : s.flatten with
      | [] => exact Or.inl rfl
      | [a] => exact Or.inr ⟨a, rfl⟩
      | a :: b :: r => rw [hx] at hav; simp at hav
    rcases hcases with h | ⟨a, h⟩ <;>
      simp [socks5_handshake, hsFlat, heq, h]

/-! ### The relay engine (`socks5_forward` in `src/server.rs`)

The outbound connection, the peer-address query, the two `io::copy`
directions and the `shutdown` calls are external effects; their outcomes
are supplied by a `ForwardEnv` and the engine's behaviour is recorded as
two event traces (one for the calling task, one for the spawned sibling
task), in the order the code performs the calls. -/

/-- A bound socket address as `peer_addr()` reports it: family, address
octets and port. -/
inductive SockAddr where
  | v4 (ip : List Nat) (port : Nat)
  | v6 (ip : List Nat) (port : Nat)
deriving DecidableEq, Repr

/-- Outcomes of the external calls `socks5_forward` makes, in program
order: `TcpStream::connect`, `peer_addr`, the reply `write_all`, the two
`io::copy` operations (returning bytes copied), and the two inline
`shutdown` calls (the spawned task ignores its shutdown results). -/
structure ForwardEnv where
  connect : Except IOErrorKind Unit
  peerAddr : Except IOErrorKind SockAddr
  writeReply : Except IOErrorKind Unit
  copyC2R : Except IOErrorKind Nat
  copyR2C : Except IOErrorKind Nat
  shutLocalMain : Except IOErrorKind Unit
  shutRemoteMain : Except IOErrorKind Unit
deriving Repr

/-- Observable relay events.  `wroteClient` carries the exact bytes
written to the client connection. -/
inductive FwdEv where
  | connectTo (target : List Char)
  | wroteClient (bytes : List Nat)
  | spawned
  | copiedC2R (r : Except IOErrorKind Nat)
  | copiedR2C (r : Except IOErrorKind Nat)
  | shutLocal
  | shutRemote
deriving DecidableEq, Repr

/-- Big-endian port bytes, as the `to_be()` pointer stores in
`socks5_forward` lay them out. -/
def portBE (p : Nat) : List Nat := [p / 256 % 256, p % 256]

/-- The relay phase of `socks5_forward`: spawn the remote-to-client copy
task (which always runs its copy and then both shutdowns, results
discarded with `let _ =`), then run the client-to-remote copy inline;
the inline `?` operators skip the remaining shutdowns on any error. -/
def fwdRelay (pre : List FwdEv) (env : ForwardEnv) :
    List FwdEv × List FwdEv × Except IOErrorKind Unit :=
  let sib : List FwdEv := [.copiedR2C env.copyR2C, .shutLocal, .shutRemote]
  let main := pre ++ [.spawned]
  match env.copyC2R with
  | .error e => (main ++ [.copiedC2R (.error e)], sib, .error e)
  | .ok n =>
    match env.shutLocalMain with
    | .error e => (main ++ [.copiedC2R (.ok n), .shutLocal], sib, .error e)
    | .ok _ =>
      match env.shutRemoteMain with
      | .error e =>
        (main ++ [.copiedC2R (.ok n), .shutLocal, .shutRemote], sib, .error e)
      | .ok _ =>
        (main ++ [.copiedC2R (.ok n), .shutLocal, .shutRemote], sib, .ok ())

/-- `socks5_forward(local, target)`: connect to the target (returning
the connect error with nothing written on failure), build the CONNECT
reply from the actual bound peer address family (the unsafe pointer
stores lay the address octets and the big-endian port out in wire
order), write it, and relay.  A failed `peer_addr` hits the `_ => ()`
match arm: no reply is written and relaying proceeds anyway. -/
def socks5_forward (target : List Char) (env : ForwardEnv) :
    List FwdEv × List FwdEv × Except IOErrorKind Unit :=
  match env.connect with
  | .error e => ([.connectTo target], [], .error e)
  | .ok _ =>
    match env.peerAddr with
    | .ok (.v4 ip port) =>
      match env.writeReply with
      | .error e =>
        ([.connectTo target, .wroteClient ([5, 0, 0, 1] ++ ip ++ portBE port)],
          [], .error e)
      | .ok _ =>
        fwdRelay [.connectTo target,
          .wroteClient ([5, 0, 0, 1] ++ ip ++ portBE port)] env
    | .ok (.v6 ip port) =>
      match env.writeReply with
      | .error e =>
        ([.connectTo target, .wroteClient ([5, 0, 0, 4] ++ ip ++ portBE port)],
          [], .error e)
      | .ok _ =>
        fwdRelay [.connectTo target,
          .wroteClient ([5, 0, 0, 4] ++ ip ++ portBE port)] env
    | .error _ => fwdRelay [.connectTo target] env

/-- The per-connection body of `start_socks5_server`: run the handshake;
on `Ok(target)` invoke the relay engine (its failure discarded with
`let _ =`), on `Err` do nothing.  `none` means the relay engine was
never invoked, so no outbound connection was ever attempted. -/
def handle_connection (s : Chunks) (env : ForwardEnv) :
    Option (List FwdEv × List FwdEv × Except IOErrorKind Unit) :=
  match (socks5_handshake s).result with
  | .ok target => some (socks5_forward target env)
  | .error _ => none

/-- Recognizer for client-write events. -/
def isWriteEv : FwdEv → Bool
  | .wroteClient _ => true
  | _ => false

/-- Recognizer for byte-forwarding (copy) events. -/
def isCopyEv : FwdEv → Bool
  | .copiedC2R _ => true
  | .copiedR2C _ => true
  | _ => false

/-! ### Target-string resolution

`socks5_forward` passes the handshake's `host + ":" + port` string to
`TcpStream::connect`, whose `ToSocketAddrs` implementation for `str`
(Rust standard library, an external collaborator of this code) first
tries to parse a full socket address, then splits at the last `':'`,
parses the port, and interprets the host as an IPv4 literal, an IPv6
literal, or a DNS name.  The parsers below are modelled from the Rust
standard library's `core::net::parser`. -/

/-- `char::to_digit(radix)`. -/
def digitVal (radix : Nat) (c : Char) : Option Nat :=
  let d : Option Nat :=
    if '0' ≤ c ∧ c ≤ '9' then some (c.toNat - 48)
    else if 'a' ≤ c ∧ c ≤ 'z' then some (c.toNat - 87)
    else if 'A' ≤ c ∧ c ≤ 'Z' then some (c.toNat - 55)
    else none
  match d with
  | some v => if v < radix then some v else none
  | none => none

/-- `Parser::read_char` guarded on an expected character. -/
def expectChar (c : Char) : List Char → Option (List Char)
  | x :: t => if x = c then some t else none
  | [] => none

/-- The digit loop of `Parser::read_number`: greedily consume digits of
the radix, with checked arithmetic against `bound` (the type's value
count, e.g. 256 for `u8`) and an optional maximum digit count; returns
the accumulated value, the digit count and the remaining input. -/
def readNumLoop (radix : Nat) (maxD : Option Nat) (bound : Nat) :
    List Char → Nat → Nat → Option (Nat × Nat × List Char)
  | [], acc, cnt => some (acc, cnt, [])
  | c :: t, acc, cnt =>
    match digitVal radix c with
    | none => some (acc, cnt, c :: t)
    | some d =>
      if bound ≤ acc * radix then none
      else if bound ≤ acc * radix + d then none
      else
        match maxD with
        | some m => if m < cnt + 1 then none
                    else readNumLoop radix maxD bound t (acc * radix + d) (cnt + 1)
        | none => readNumLoop radix maxD bound t (acc * radix + d) (cnt + 1)

/-- `Parser::read_number(radix, max_digits, allow_zero_prefix)`. -/
def readNumber (radix : Nat) (maxD : Option Nat) (bound : Nat)
    (allowZeroPre : Bool) (s : List Char) : Option (Nat × List Char) :=
  let hasLeadZero := s.head? = some '0'
  match readNumLoop radix maxD bound s 0 0 with
  | none => none
  | some (v, cnt, rest) =>
    if cnt = 0 then none
    else if ¬allowZeroPre ∧ hasLeadZero ∧ 1 < cnt then none
    else some (v, rest)

/-- `Parser::read_ipv4_addr`: four `u8` decimal octets (at most 3
digits, no leading zeros), dot-separated. -/
def readIpv4 (s : List Char) : Option (List Nat × List Char) := do
  let (o1, s1) ← readNumber 10 (some 3) 256 false s
  let s2 ← expectChar '.' s1
  let (o2, s3) ← readNumber 10 (some 3) 256 false s2
  let s4 ← expectChar '.' s3
  let (o3, s5) ← readNumber 10 (some 3) 256 false s4
  let s6 ← expectChar '.' s5
  let (o4, s7) ← readNumber 10 (some 3) 256 false s6
  pure ([o1, o2, o3, o4], s7)

/-- `Parser::read_separator`: groups after the first are preceded by the
separator character. -/
def readSepThen {α : Type} (c : Char) (i : Nat)
    (inner : List Char → Option α) (s : List Char) : Option α :=
  if i = 0 then inner s
  else
    match expectChar c s with
    | some t => inner t
    | none => none

/-- The `read_groups` helper of `Parser::read_ipv6_addr`, with `slots`
remaining group slots and `i` the current group index: at each slot a
trailing embedded IPv4 address is tried first (only while at least two
slots remain), then a hex group of at most 4 digits; returns the group
values read, the remaining input, and whether an embedded IPv4 address
ended the run. -/
def readGroupsAux : Nat → Nat → List Char → List Nat → List Nat × List Char × Bool
  | _, 0, s, acc => (acc.reverse, s, false)
  | i, slots + 1, s, acc =>
    match (if 1 ≤ slots then readSepThen ':' i readIpv4 s else none) with
    | some (oc, rest) =>
      (acc.reverse ++ [oc.getD 0 0 * 256 + oc.getD 1 0,
        oc.getD 2 0 * 256 + oc.getD 3 0], rest, true)
    | none =>
      match readSepThen ':' i (readNumber 16 (some 4) 65536 true) s with
      | some (g, rest) => readGroupsAux (i + 1) slots rest (g :: acc)
      | none => (acc.reverse, s, false)

/-- `Parser::read_ipv6_addr`: a head run of groups; if it fills all 8
slots the address is complete, otherwise (unless the head ended in an
embedded IPv4 address) a literal `::` follows and a tail run of at most
`8 - head - 1` groups fills the end, zeros in between. -/
def parseIpv6Core (s : List Char) : Option (List Nat × List Char) :=
  let h := readGroupsAux 0 8 s []
  if h.1.length = 8 then some (h.1, h.2.1)
  else if h.2.2 then none
  else
    match expectChar ':' h.2.1 with
    | none => none
    | some s2 =>
      match expectChar ':' s2 with
      | none => none
      | some s3 =>
        let t := readGroupsAux 0 (8 - (h.1.length + 1)) s3 []
        some (h.1 ++ List.replicate (8 - h.1.length - t.1.length) 0 ++ t.1, t.2.1)

/-- `Ipv6Addr::from_str`: the core parser must consume the whole string. -/
def parseIpv6Full (s : List Char) : Option (List Nat) :=
  match parseIpv6Core s with
  | some (segs, []) => some segs
  | _ => none

/-- `Ipv4Addr::from_str`. -/
def parseIpv4Full (s : List Char) : Option (List Nat) :=
  match readIpv4 s with
  | some (oc, []) => some oc
  | _ => none

/-- `Parser::read_port`: `':'` then a decimal `u16` (leading zeros
allowed, no digit limit). -/
def readPort (s : List Char) : Option (Nat × List Char) :=
  match expectChar ':' s with
  | some t => readNumber 10 none 65536 true t
  | none => none

/-- `SocketAddrV4::from_str`: IPv4 address, then port, full consumption. -/
def parseSocketAddrV4Full (s : List Char) : Option (List Nat × Nat) :=
  match readIpv4 s with
  | some (oc, s1) =>
    match readPort s1 with
    | some (p, []) => some (oc, p)
    | _ => none
  | none => none

/-- `SocketAddrV6::from_str`: `'['`, the IPv6 address, an optional
`'%'`-prefixed decimal scope id, `']'`, then the port, full consumption. -/
def parseSocketAddrV6Full (s : List Char) : Option (List Nat × Nat) :=
  match expectChar '[' s with
  | none => none
  | some s1 =>
    match parseIpv6Core s1 with
    | none => none
    | some (segs, s2) =>
      let s3 :=
        match expectChar '%' s2 with
        | some t =>
          match readNumber 10 none 4294967296 true t with
          | some (_, t2) => some t2
          | none => none
        | none => some s2
      match s3 with
      | none => none
      | some s4 =>
        match expectChar ']' s4 with
        | none => none
        | some s5 =>
          match readPort s5 with
          | some (p, []) => some (segs, p)
          | _ => none

/-- `str::rsplit_once(':')`: split at the last colon. -/
def rsplitOnceColon : List Char → Option (List Char × List Char)
  | [] => none
  | c :: t =>
    match rsplitOnceColon t with
    | some (a, b) => some (c :: a, b)
    | none => if c = ':' then some ([], t) else none

/-- `u16::from_str`'s digit loop: all characters must be decimal digits
and the checked accumulation must stay below 65536. -/
def decValLoop : List Char → Nat → Option Nat
  | [], acc => some acc
  | c :: t, acc =>
    match digitVal 10 c with
    | some d => if 65536 ≤ acc * 10 + d then none else decValLoop t (acc * 10 + d)
    | none => none

/-- `u16::from_str`: an optional leading `'+'`, then at least one
decimal digit, value below 2^16. -/
def parseU16Dec (s : List Char) : Option Nat :=
  let s1 := match s with
    | '+' :: t => t
    | _ => s
  match s1 with
  | [] => none
  | _ => decValLoop s1 0

/-- A resolved connect target: a concrete IPv4 socket address (octets),
a concrete IPv6 socket address (segments), or a name to be resolved by
DNS.  `none` means `connect` fails with an invalid-input error without
any network activity. -/
inductive ResolvedTarget where
  | v4 (octets : List Nat) (port : Nat)
  | v6 (segs : List Nat) (port : Nat)
  | dns (host : List Char) (port : Nat)
deriving DecidableEq, Repr

/-- `ToSocketAddrs` for `str` (the resolution `TcpStream::connect`
applies to the handshake's target string): try `SocketAddr::from_str`
(V4 then V6); otherwise split at the last `':'`, parse the port as a
`u16`, and take the host as an IPv4 literal, an IPv6 literal, or a DNS
name, in that order. -/
def resolveTarget (s : List Char) : Option ResolvedTarget :=
  match parseSocketAddrV4Full s with
  | some (oc, p) => some (.v4 oc p)
  | none =>
    match parseSocketAddrV6Full s with
    | some (segs, p) => some (.v6 segs p)
    | none =>
      match rsplitOnceColon s with
      | none => none
      | some (host, portStr) =>
        match parseU16Dec portStr with
        | none => none
        | some p =>
          match parseIpv4Full host with
          | some oc => some (.v4 oc p)
          | none =>
            match parseIpv6Full host with
            | some segs => some (.v6 segs p)
            | none => some (.dns host p)

/-! ### Digit rendering and parsing round-trips -/

theorem digitsBEAux_eq (b : Nat) (hb : 2 ≤ b) :
    ∀ fuel n, n ≤ fuel → digitsBEAux b fuel n = (Nat.digits b n).reverse := by
  intro fuel
  induction fuel with
  | zero =>
    intro n hn
    have : n = 0 := by omega
    simp [this, digitsBEAux]
  | succ f ih =>
    intro n hn
    by_cases h0 : n = 0
    · simp [h0, digitsBEAux]
    · have hdiv : n / b ≤ f := by
        have : n / b < n := Nat.div_lt_self (by omega) (by omega)
        omega
      rw [digitsBEAux, if_neg h0, ih (n / b) hdiv,
        Nat.digits_def' (by omega : 1 < b) (by omega : 0 < n)]
      simp

theorem natDigitsBE_eq (b n : Nat) (hb : 2 ≤ b) (hn : n ≠ 0) :
    natDigitsBE b n = (Nat.digits b n).reverse := by
  rw [natDigitsBE, if_neg hn]
  exact digitsBEAux_eq b hb (n + 1) n (by omega)

theorem natDigitsBE_lt (b n : Nat) (hb : 2 ≤ b) :
    ∀ d ∈ natDigitsBE b n, d < b := by
  by_cases hn : n = 0
  · simp [hn, natDigitsBE]
    omega
  · rw [natDigitsBE_eq b n hb hn]
    intro d hd
    exact Nat.digits_lt_base (by omega) (List.mem_reverse.mp hd)

theorem foldl_reverse_ofDigits (b : Nat) :
    ∀ (L : List Nat) (acc : Nat),
      List.foldl (fun a d => a * b + d) acc L.reverse =
        acc * b ^ L.length + Nat.ofDigits b L := by
  intro L
  induction L with
  | nil => intro acc; simp
  | cons d L ih =>
    intro acc
    rw [List.reverse_cons, List.foldl_append, ih acc]
    simp only [List.foldl]
    rw [Nat.ofDigits_cons, List.length_cons, pow_succ]
    ring

theorem foldl_natDigitsBE (b n : Nat) (hb : 2 ≤ b) :
    List.foldl (fun a d => a * b + d) 0 (natDigitsBE b n) = n := by
  by_cases hn : n = 0
  · simp [hn, natDigitsBE]
  · rw [natDigitsBE_eq b n hb hn, foldl_reverse_ofDigits]
    simp [Nat.ofDigits_digits]

theorem natDigitsBE_len_le (b n k : Nat) (hb : 2 ≤ b) (hk : 1 ≤ k)
    (hn : n < b ^ k) : (natDigitsBE b n).length ≤ k := by
  by_cases h0 : n = 0
  · simp [h0, natDigitsBE]; omega
  · rw [natDigitsBE_eq b n hb h0, List.length_reverse]
    by_contra hgt
    push_neg at hgt
    have hle := Nat.base_pow_length_digits_le b n (by omega) h0
    have h1 : b ^ (k + 1) ≤ b ^ (Nat.digits b n).length :=
      Nat.pow_le_pow_right (by omega) (by omega)
    have h2 : b ^ (k + 1) = b * b ^ k := by rw [pow_succ]; ring
    have h3 : b * b ^ k ≤ b * n := by omega
    have h4 : b ^ k ≤ n := Nat.le_of_mul_le_mul_left h3 (by omega)
    omega

theorem natDigitsBE_ne_nil (b n : Nat) : natDigitsBE b n ≠ [] := by
  by_cases h0 : n = 0
  · simp [h0, natDigitsBE]
  · rw [natDigitsBE, if_neg h0]
    match hf : n, h0 with
    | m + 1, _ =>
      rw [digitsBEAux]
      simp

theorem natDigitsBE_head (b n : Nat) (hb : 2 ≤ b) :
    ∃ d0 tl, natDigitsBE b n = d0 :: tl ∧ d0 < b ∧ (n ≠ 0 → d0 ≠ 0) := by
  by_cases h0 : n = 0
  · exact ⟨0, [], by simp [h0, natDigitsBE], by omega, fun h => absurd h0 h⟩
  · have hne : Nat.digits b n ≠ [] := Nat.digits_ne_nil_iff_ne_zero.mpr h0
    rw [natDigitsBE_eq b n hb h0]
    match hrev : (Nat.digits b n).reverse with
    | [] =>
      exfalso
      exact hne (by simpa using congrArg List.reverse hrev)
    | d0 :: tl =>
      refine ⟨d0, tl, rfl, ?_, fun _ => ?_⟩
      · have : d0 ∈ Nat.digits b n := by
          rw [← List.mem_reverse, hrev]; simp
        exact Nat.digits_lt_base (by omega) this
      · have hlast : (Nat.digits b n).getLast? = some d0 := by
          rw [← List.head?_reverse, hrev]; rfl
        have hgl := Nat.getLast_digit_ne_zero b h0
        rw [List.getLast?_eq_getLast _ hne] at hlast
        have h1 : (Nat.digits b n).getLast hne = d0 := Option.some.inj hlast
        intro hd0
        exact hgl (h1.trans hd0)

theorem foldl_mul_add_mono (radix : Nat) (hr : 1 ≤ radix) :
    ∀ (ds : List Nat) (a : Nat),
      a ≤ List.foldl (fun x d => x * radix + d) a ds := by
  intro ds
  induction ds with
  | nil => intro a; simp
  | cons d ds ih =>
    intro a
    simp only [List.foldl]
    calc a ≤ a * radix + d := by
          have : a ≤ a * radix := Nat.le_mul_of_pos_right a (by omega)
          omega
      _ ≤ _ := ih (a * radix + d)

theorem readNumLoop_digits (radix : Nat) (maxD : Option Nat) (bound : Nat)
    (hr : 1 ≤ radix) (χ : Nat → Char)
    (hχ : ∀ d, d < radix → digitVal radix (χ d) = some d) :
    ∀ (ds : List Nat) (acc cnt : Nat) (rest : List Char),
      (∀ d ∈ ds, d < radix) →
      List.foldl (fun a d => a * radix + d) acc ds < bound →
      (∀ m, maxD = some m → cnt + ds.length ≤ m) →
      (rest = [] ∨ ∃ c t, rest = c :: t ∧ digitVal radix c = none) →
      readNumLoop radix maxD bound (ds.map χ ++ rest) acc cnt =
        some (List.foldl (fun a d => a * radix + d) acc ds,
          cnt + ds.length, rest) := by
  intro ds
  induction ds with
  | nil =>
    intro acc cnt rest _ _ _ hrest
    rcases hrest with h | ⟨c, t, hct, hc⟩
    · simp [h, readNumLoop]
    · simp [hct, readNumLoop, hc]
  | cons d ds ih =>
    intro acc cnt rest hlt hbound hmax hrest
    have hd : d < radix := hlt d (List.mem_cons_self d ds)
    have hmono := foldl_mul_add_mono radix hr ds (acc * radix + d)
    have hflc : List.foldl (fun a d => a * radix + d) acc (d :: ds) =
        List.foldl (fun a d => a * radix + d) (acc * radix + d) ds := rfl
    rw [hflc] at hbound
    rw [hflc]
    have hnb1 : ¬ bound ≤ acc * radix := by omega
    have hnb2 : ¬ bound ≤ acc * radix + d := by omega
    have hlen : cnt + (d :: ds).length = (cnt + 1) + ds.length := by
      simp; omega
    rw [hlen]
    cases maxD with
    | some m =>
      have hle : cnt + 1 + ds.length ≤ m := by
        have := hmax m rfl
        simp at this
        omega
      have hcnt : ¬ m < cnt + 1 := by omega
      simp only [List.map, List.cons_append, readNumLoop, hχ d hd, hnb1, hnb2,
        if_false, hcnt]
      exact ih (acc * radix + d) (cnt + 1) rest
        (fun x hx => hlt x (List.mem_cons_of_mem d hx)) hbound
        (fun m2 hm2 => by
          have hmm : m2 = m := Option.some_injective _ hm2.symm
          omega) hrest
    | none =>
      simp only [List.map, List.cons_append, readNumLoop, hχ d hd, hnb1, hnb2,
        if_false]
      exact ih (acc * radix + d) (cnt + 1) rest
        (fun x hx => hlt x (List.mem_cons_of_mem d hx)) hbound
        (fun m2 hm2 => by simp at hm2) hrest

/-! ### Character facts (by computation) -/

theorem hexChar_digit : ∀ d, d < 16 → digitVal 16 (hexDigitChar d) = some d := by
  decide

theorem hexChar_ne : ∀ d, d < 16 →
    hexDigitChar d ≠ ':' ∧ hexDigitChar d ≠ '.' ∧ hexDigitChar d ≠ '[' ∧
    hexDigitChar d ≠ '+' := by
  decide

theorem decChar_digit : ∀ d, d < 10 → digitVal 10 (decDigitChar d) = some d := by
  decide

theorem decChar_ne : ∀ d, d < 10 →
    decDigitChar d ≠ ':' ∧ decDigitChar d ≠ '.' ∧ decDigitChar d ≠ '[' ∧
    decDigitChar d ≠ '+' := by
  decide

theorem decChar_zero : ∀ d, d < 10 → (decDigitChar d = '0' ↔ d = 0) := by
  decide

theorem digitVal_colon (radix : Nat) : digitVal radix ':' = none := rfl

theorem digitVal_dot (radix : Nat) : digitVal radix '.' = none := rfl

/-! ### `read_number` round-trips -/

theorem readNumber_hex (g : Nat) (hg : g < 65536) (rest : List Char)
    (hrest : rest = [] ∨ ∃ c t, rest = c :: t ∧ digitVal 16 c = none) :
    readNumber 16 (some 4) 65536 true (natHexChars g ++ rest) = some (g, rest) := by
  have hds : ∀ d ∈ natDigitsBE 16 g, d < 16 := natDigitsBE_lt 16 g (by omega)
  have hfold : List.foldl (fun a d => a * 16 + d) 0 (natDigitsBE 16 g) = g :=
    foldl_natDigitsBE 16 g (by omega)
  have hlen : (natDigitsBE 16 g).length ≤ 4 :=
    natDigitsBE_len_le 16 g 4 (by omega) (by omega) (by norm_num; omega)
  have hloop := readNumLoop_digits 16 (some 4) 65536 (by omega) hexDigitChar
    hexChar_digit (natDigitsBE 16 g) 0 0 rest hds (by rw [hfold]; omega)
    (fun m hm => by
      have : m = 4 := Option.some_injective _ hm.symm
      omega) hrest
  rw [readNumber, natHexChars, hloop, hfold]
  have hne : (natDigitsBE 16 g).length ≠ 0 := by
    have := natDigitsBE_ne_nil 16 g
    intro h
    exact this (List.length_eq_zero.mp h)
  simp [hne]

theorem readNumber_dec_octet (o : Nat) (ho : o < 256) (rest : List Char)
    (hrest : rest = [] ∨ ∃ c t, rest = c :: t ∧ digitVal 10 c = none) :
    readNumber 10 (some 3) 256 false (natDecChars o ++ rest) = some (o, rest) := by
  have hds : ∀ d ∈ natDigitsBE 10 o, d < 10 := natDigitsBE_lt 10 o (by omega)
  have hfold : List.foldl (fun a d => a * 10 + d) 0 (natDigitsBE 10 o) = o :=
    foldl_natDigitsBE 10 o (by omega)
  have hlen : (natDigitsBE 10 o).length ≤ 3 :=
    natDigitsBE_len_le 10 o 3 (by omega) (by omega) (by norm_num; omega)
  have hloop := readNumLoop_digits 10 (some 3) 256 (by omega) decDigitChar
    decChar_digit (natDigitsBE 10 o) 0 0 rest hds (by rw [hfold]; omega)
    (fun m hm => by
      have : m = 3 := Option.some_injective _ hm.symm
      omega) hrest
  obtain ⟨d0, tl, hcons, hd0lt, hd0ne⟩ := natDigitsBE_head 10 o (by omega)
  rw [readNumber, natDecChars, hloop, hfold]
  by_cases h0 : o = 0
  · have hcnt : (natDigitsBE 10 o).length = 1 := by
      simp [h0, natDigitsBE]
    simp [hcnt]
  · have hhead : (List.map decDigitChar (natDigitsBE 10 o) ++ rest).head? =
        some (decDigitChar d0) := by
      rw [hcons]; simp
    have hno : decDigitChar d0 ≠ '0' := by
      intro h
      exact (hd0ne h0) ((decChar_zero d0 hd0lt).mp h)
    have hnil := natDigitsBE_ne_nil 10 o
    simp [hhead, hno, hnil]

theorem decValLoop_digits :
    ∀ (ds : List Nat) (acc : Nat),
      (∀ d ∈ ds, d < 10) →
      List.foldl (fun a d => a * 10 + d) acc ds < 65536 →
      decValLoop (ds.map decDigitChar) acc =
        some (List.foldl (fun a d => a * 10 + d) acc ds) := by
  intro ds
  induction ds with
  | nil => intro acc _ _; simp [decValLoop]
  | cons d ds ih =>
    intro acc hlt hbound
    have hd : d < 10 := hlt d (List.mem_cons_self d ds)
    have hmono := foldl_mul_add_mono 10 (by omega) ds (acc * 10 + d)
    have hflc : List.foldl (fun a d => a * 10 + d) acc (d :: ds) =
        List.foldl (fun a d => a * 10 + d) (acc * 10 + d) ds := rfl
    rw [hflc] at hbound
    rw [hflc]
    have hnb : ¬ (65536 ≤ acc * 10 + d) := by omega
    simp only [List.map, decValLoop, decChar_digit d hd, hnb, if_false]
    exact ih (acc * 10 + d) (fun x hx => hlt x (List.mem_cons_of_mem d hx)) hbound

theorem parseU16Dec_render (p : Nat) (hp : p < 65536) :
    parseU16Dec (natDecChars p) = some p := by
  obtain ⟨d0, tl, hcons, hd0lt, _⟩ := natDigitsBE_head 10 p (by omega)
  have hds : ∀ d ∈ natDigitsBE 10 p, d < 10 := natDigitsBE_lt 10 p (by omega)
  have hfold : List.foldl (fun a d => a * 10 + d) 0 (natDigitsBE 10 p) = p :=
    foldl_natDigitsBE 10 p (by omega)
  have hchars : natDecChars p = decDigitChar d0 :: tl.map decDigitChar := by
    rw [natDecChars, hcons]; rfl
  have hplus : decDigitChar d0 ≠ '+' := (decChar_ne d0 hd0lt).2.2.2
  have hloop2 : decValLoop (decDigitChar d0 :: tl.map decDigitChar) 0 = some p := by
    have h1 := decValLoop_digits (natDigitsBE 10 p) 0 hds (by rw [hfold]; omega)
    rw [hfold] at h1
    rw [hcons] at h1
    simpa using h1
  rw [parseU16Dec, hchars]
  simp [hplus, hloop2]
  · intro t ht
    rw [hchars] at ht
    injection ht with h1 h2
    exact hplus h1
  · intro h
    rw [hchars] at h
    exact List.cons_ne_nil _ _ h

/-! ### Remaining-input and character-class lemmas -/

theorem readNumLoop_rest_sub (radix : Nat) (maxD : Option Nat) (bound : Nat) :
    ∀ (s : List Char) (acc cnt v c2 : Nat) (rest : List Char),
      readNumLoop radix maxD bound s acc cnt = some (v, c2, rest) →
      ∀ x ∈ rest, x ∈ s := by
  intro s
  induction s with
  | nil =>
    intro acc cnt v c2 rest h x hx
    simp [readNumLoop] at h
    obtain ⟨h1, h2, h3⟩ := h
    subst h3
    exact hx
  | cons c t ih =>
    intro acc cnt v c2 rest h x hx
    rw [readNumLoop] at h
    split at h
    · simp at h
      obtain ⟨h1, h2, h3⟩ := h
      subst h3
      exact hx
    · split at h
      · exact absurd h (by simp)
      · split at h
        · exact absurd h (by simp)
        · split at h
          · split at h
            · exact absurd h (by simp)
            · exact List.mem_cons_of_mem _ (ih _ _ _ _ _ h x hx)
          · exact List.mem_cons_of_mem _ (ih _ _ _ _ _ h x hx)

theorem readNumber_rest_sub (radix : Nat) (maxD : Option Nat) (bound : Nat)
    (az : Bool) (s : List Char) (v : Nat) (rest : List Char)
    (h : readNumber radix maxD bound az s = some (v, rest)) :
    ∀ x ∈ rest, x ∈ s := by
  rw [readNumber] at h
  cases hl : readNumLoop radix maxD bound s 0 0 with
  | none => rw [hl] at h; simp at h
  | some t =>
    obtain ⟨v1, cnt1, rest1⟩ := t
    rw [hl] at h
    dsimp only at h
    split at h
    · simp at h
    · split at h
      · simp at h
      · simp at h
        obtain ⟨_, h2⟩ := h
        rw [← h2]
        exact readNumLoop_rest_sub radix maxD bound s 0 0 v1 cnt1 rest1 hl

theorem readIpv4_no_dot (s : List Char) (hnd : '.' ∉ s) : readIpv4 s = none := by
  rw [readIpv4]
  cases h1 : readNumber 10 (some 3) 256 false s with
  | none => rfl
  | some p =>
    obtain ⟨o1, s1⟩ := p
    have hsub := readNumber_rest_sub 10 (some 3) 256 false s o1 s1 h1
    have hdot : expectChar '.' s1 = none := by
      cases s1 with
      | nil => rfl
      | cons c t =>
        have : c ∈ s := hsub c (List.mem_cons_self c t)
        have hc : ¬ (c = '.') := fun he => hnd (he ▸ this)
        simp [expectChar, hc]
    simp [hdot]

theorem natHexChars_shape (g : Nat) :
    ∀ c ∈ natHexChars g, ∃ d, d < 16 ∧ c = hexDigitChar d := by
  intro c hc
  rw [natHexChars] at hc
  obtain ⟨d, hd, hcd⟩ := List.mem_map.mp hc
  exact ⟨d, natDigitsBE_lt 16 g (by omega) d hd, hcd.symm⟩

theorem natDecChars_shape (n : Nat) :
    ∀ c ∈ natDecChars n, ∃ d, d < 10 ∧ c = decDigitChar d := by
  intro c hc
  rw [natDecChars] at hc
  obtain ⟨d, hd, hcd⟩ := List.mem_map.mp hc
  exact ⟨d, natDigitsBE_lt 10 n (by omega) d hd, hcd.symm⟩

theorem natHexChars_no_dot (g : Nat) : '.' ∉ natHexChars g := by
  intro h
  obtain ⟨d, hd, hc⟩ := natHexChars_shape g '.' h
  exact (hexChar_ne d hd).2.1 hc.symm

theorem natDecChars_no_dot (n : Nat) : '.' ∉ natDecChars n := by
  intro h
  obtain ⟨d, hd, hc⟩ := natDecChars_shape n '.' h
  exact (decChar_ne d hd).2.1 hc.symm

theorem natDecChars_no_colon (n : Nat) : ':' ∉ natDecChars n := by
  intro h
  obtain ⟨d, hd, hc⟩ := natDecChars_shape n ':' h
  exact (decChar_ne d hd).1 hc.symm

theorem renderTail_chars (gs : List Nat) :
    ∀ c ∈ renderTail gs, c = ':' ∨ ∃ d, d < 16 ∧ c = hexDigitChar d := by
  induction gs with
  | nil => intro c hc; simp [renderTail] at hc
  | cons g gs ih =>
    intro c hc
    rw [renderTail] at hc
    rcases List.mem_cons.mp hc with h | h
    · exact Or.inl h
    · rcases List.mem_append.mp h with h2 | h2
      · exact Or.inr (natHexChars_shape g c h2)
      · exact ih c h2

theorem fmtSubslice_chars (gs : List Nat) :
    ∀ c ∈ fmtSubslice gs, c = ':' ∨ ∃ d, d < 16 ∧ c = hexDigitChar d := by
  cases gs with
  | nil => intro c hc; simp [fmtSubslice] at hc
  | cons g gs =>
    intro c hc
    rw [fmtSubslice] at hc
    rcases List.mem_append.mp hc with h | h
    · exact Or.inr (natHexChars_shape g c h)
    · exact renderTail_chars gs c h

theorem fmtSubslice_no_dot (gs : List Nat) : '.' ∉ fmtSubslice gs := by
  intro h
  rcases fmtSubslice_chars gs '.' h with h1 | ⟨d, hd, h2⟩
  · simp at h1
  · exact (hexChar_ne d hd).2.1 h2.symm

theorem renderTail_no_dot (gs : List Nat) : '.' ∉ renderTail gs := by
  intro h
  rcases renderTail_chars gs '.' h with h1 | ⟨d, hd, h2⟩
  · simp at h1
  · exact (hexChar_ne d hd).2.1 h2.symm

/-! ### IPv4 rendering round-trip and failure lemmas -/

theorem readIpv4_render (a b c d : Nat) (ha : a < 256) (hb2 : b < 256)
    (hc2 : c < 256) (hd2 : d < 256) :
    readIpv4 (formatIpv4 [a, b, c, d]) = some ([a, b, c, d], []) := by
  have hfmt : formatIpv4 [a, b, c, d] =
      natDecChars a ++ '.' ::
        (natDecChars b ++ '.' :: (natDecChars c ++ '.' :: natDecChars d)) := by
    simp [formatIpv4]
  have h1 := readNumber_dec_octet a ha
    ('.' :: (natDecChars b ++ '.' :: (natDecChars c ++ '.' :: natDecChars d)))
    (Or.inr ⟨'.', _, rfl, rfl⟩)
  have h2 := readNumber_dec_octet b hb2
    ('.' :: (natDecChars c ++ '.' :: natDecChars d)) (Or.inr ⟨'.', _, rfl, rfl⟩)
  have h3 := readNumber_dec_octet c hc2 ('.' :: natDecChars d)
    (Or.inr ⟨'.', _, rfl, rfl⟩)
  have h4 : readNumber 10 (some 3) 256 false (natDecChars d) = some (d, []) := by
    have := readNumber_dec_octet d hd2 [] (Or.inl rfl)
    simpa using this
  rw [hfmt, readIpv4]
  simp [h1, h2, h3, h4, expectChar]

theorem readNumber_colon (radix : Nat) (maxD : Option Nat) (bound : Nat)
    (az : Bool) (t : List Char) :
    readNumber radix maxD bound az (':' :: t) = none := by
  simp [readNumber, readNumLoop, digitVal_colon]

theorem readNumber_nil (radix : Nat) (maxD : Option Nat) (bound : Nat)
    (az : Bool) : readNumber radix maxD bound az [] = none := by
  simp [readNumber, readNumLoop]

theorem readIpv4_colon (t : List Char) : readIpv4 (':' :: t) = none := by
  simp [readIpv4, readNumber_colon]

theorem readIpv4_nil : readIpv4 [] = none := by
  simp [readIpv4, readNumber_nil]

/-- Input positions where a group run stops: end of input, or a colon
followed by end of input or another colon (the `::` separator). -/
def stopStr (rest : List Char) : Prop :=
  rest = [] ∨ ∃ t, rest = ':' :: t ∧ (t = [] ∨ ∃ u, t = ':' :: u)

theorem readSepHex_stop (i : Nat) (rest : List Char) (h : stopStr rest) :
    readSepThen ':' i (readNumber 16 (some 4) 65536 true) rest = none := by
  rcases h with h | ⟨t, ht, h2⟩
  · subst h
    by_cases hi : i = 0 <;> simp [readSepThen, hi, readNumber_nil, expectChar]
  · subst ht
    by_cases hi : i = 0
    · simp [readSepThen, hi, readNumber_colon]
    · rcases h2 with h2 | ⟨u, hu⟩
      · subst h2
        simp [readSepThen, hi, expectChar, readNumber_nil]
      · subst hu
        simp [readSepThen, hi, expectChar, readNumber_colon]

theorem readSepIpv4_stop (i : Nat) (rest : List Char) (h : stopStr rest) :
    readSepThen ':' i readIpv4 rest = none := by
  rcases h with h | ⟨t, ht, h2⟩
  · subst h
    by_cases hi : i = 0 <;> simp [readSepThen, hi, readIpv4_nil, expectChar]
  · subst ht
    by_cases hi : i = 0
    · simp [readSepThen, hi, readIpv4_colon]
    · rcases h2 with h2 | ⟨u, hu⟩
      · subst h2
        simp [readSepThen, hi, expectChar, readIpv4_nil]
      · subst hu
        simp [readSepThen, hi, expectChar, readIpv4_colon]

theorem readSepIpv4_noDot (i : Nat) (s : List Char) (h : '.' ∉ s) :
    readSepThen ':' i readIpv4 s = none := by
  by_cases hi : i = 0
  · simp [readSepThen, hi, readIpv4_no_dot s h]
  · cases s with
    | nil => simp [readSepThen, hi, expectChar]
    | cons c t =>
      by_cases hcol : c = ':'
      · have hnd : '.' ∉ t := fun hx => h (List.mem_cons_of_mem c hx)
        simp [readSepThen, hi, expectChar, hcol, readIpv4_no_dot t hnd]
      · simp [readSepThen, hi, expectChar, hcol]

theorem readGroupsAux_stop (i slots : Nat) (rest : List Char) (acc : List Nat)
    (h : stopStr rest) :
    readGroupsAux i slots rest acc = (acc.reverse, rest, false) := by
  cases slots with
  | zero => rfl
  | succ k =>
    rw [readGroupsAux]
    have hiv : (if 1 ≤ k then readSepThen ':' i readIpv4 rest else none) = none := by
      split
      · exact readSepIpv4_stop i rest h
      · rfl
    rw [hiv, readSepHex_stop i rest h]

/-- A rendered group run is parsed back exactly: starting at group index
`i` with enough free slots, the parser consumes the rendered groups and
stops at `rest` (which must be empty or start the `::` separator),
without ever recognizing an embedded IPv4 address. -/
theorem readGroups_render :
    ∀ (gs : List Nat) (i slots : Nat) (acc : List Nat) (rest : List Char),
      gs.length ≤ slots →
      (∀ g ∈ gs, g < 65536) →
      '.' ∉ rest →
      stopStr rest →
      readGroupsAux i slots
        ((if i = 0 then fmtSubslice gs else renderTail gs) ++ rest) acc =
        (acc.reverse ++ gs, rest, false) := by
  intro gs
  induction gs with
  | nil =>
    intro i slots acc rest _ _ _ hstop
    have hr : (if i = 0 then fmtSubslice [] else renderTail []) = ([] : List Char) := by
      split <;> rfl
    rw [hr, List.nil_append, readGroupsAux_stop i slots rest acc hstop]
    simp
  | cons g gs ih =>
    intro i slots acc rest hlen hlt hdot hstop
    cases slots with
    | zero => simp at hlen
    | succ k =>
      have hk : gs.length ≤ k := by simpa using hlen
      have hg : g < 65536 := hlt g (List.mem_cons_self g gs)
      have hgs : ∀ x ∈ gs, x < 65536 :=
        fun x hx => hlt x (List.mem_cons_of_mem g hx)
      have hdotR : '.' ∉ renderTail gs ++ rest := by
        intro hx
        rcases List.mem_append.mp hx with h | h
        · exact renderTail_no_dot gs h
        · exact hdot h
      have hstopN : (renderTail gs ++ rest) = [] ∨
          ∃ c t, renderTail gs ++ rest = c :: t ∧ digitVal 16 c = none := by
        cases gs with
        | nil =>
          simp only [renderTail, List.nil_append]
          rcases hstop with h | ⟨t, ht, _⟩
          · exact Or.inl h
          · exact Or.inr ⟨':', t, ht, digitVal_colon 16⟩
        | cons g2 gs2 =>
          exact Or.inr ⟨':', (natHexChars g2 ++ renderTail gs2) ++ rest,
            by simp [renderTail], digitVal_colon 16⟩
      have hrec := ih (i + 1) k (g :: acc) rest hk hgs hdot hstop
      rw [if_neg (by omega : ¬ i + 1 = 0)] at hrec
      have hdotI : '.' ∉ natHexChars g ++ (renderTail gs ++ rest) := by
        intro hx
        rcases List.mem_append.mp hx with h | h
        · exact natHexChars_no_dot g h
        · exact hdotR h
      by_cases hi : i = 0
      · have hinput :
            (if i = 0 then fmtSubslice (g :: gs) else renderTail (g :: gs)) ++ rest =
            natHexChars g ++ (renderTail gs ++ rest) := by
          rw [if_pos hi, fmtSubslice, List.append_assoc]
        rw [hinput, readGroupsAux]
        have hiv : (if 1 ≤ k then readSepThen ':' i readIpv4
            (natHexChars g ++ (renderTail gs ++ rest)) else none) = none := by
          split
          · exact readSepIpv4_noDot i _ hdotI
          · rfl
        have hhex : readSepThen ':' i (readNumber 16 (some 4) 65536 true)
            (natHexChars g ++ (renderTail gs ++ rest)) =
            some (g, renderTail gs ++ rest) := by
          rw [readSepThen, if_pos hi]
          exact readNumber_hex g hg _ hstopN
        rw [hiv, hhex]
        simp [hrec]
      · have hinput :
            (if i = 0 then fmtSubslice (g :: gs) else renderTail (g :: gs)) ++ rest =
            ':' :: (natHexChars g ++ (renderTail gs ++ rest)) := by
          rw [if_neg hi, renderTail]
          simp [List.append_assoc]
        rw [hinput, readGroupsAux]
        have hdotC : '.' ∉ ':' :: (natHexChars g ++ (renderTail gs ++ rest)) := by
          intro hx
          rcases List.mem_cons.mp hx with h | h
          · simp at h
          · exact hdotI h
        have hiv : (if 1 ≤ k then readSepThen ':' i readIpv4
            (':' :: (natHexChars g ++ (renderTail gs ++ rest))) else none) = none := by
          split
          · exact readSepIpv4_noDot i _ hdotC
          · rfl
        have hexp : expectChar ':' (':' :: (natHexChars g ++ (renderTail gs ++ rest))) =
            some (natHexChars g ++ (renderTail gs ++ rest)) := by
          simp [expectChar]
        have hhex : readSepThen ':' i (readNumber 16 (some 4) 65536 true)
            (':' :: (natHexChars g ++ (renderTail gs ++ rest))) =
            some (g, renderTail gs ++ rest) := by
          rw [readSepThen, if_neg hi, hexp]
          exact readNumber_hex g hg _ hstopN
        rw [hiv, hhex]
        simp [hrec]

/-! ### The zero-run scan of the IPv6 formatter -/

/-- The positions `[st, st+len)` of `segs` exist and hold zeros. -/
def spanZeros (segs : List Nat) (st len : Nat) : Prop :=
  st + len ≤ segs.length ∧ ∀ k, k < len → segs.getD (st + k) 0 = 0

theorem zeroSpanLoop_valid :
    ∀ (l full : List Nat) (i : Nat) (cur lng : Nat × Nat),
      l = full.drop i → i ≤ full.length →
      (cur.2 = 0 ∨ (cur.1 + cur.2 = i ∧ spanZeros full cur.1 cur.2)) →
      (lng.2 = 0 ∨ spanZeros full lng.1 lng.2) →
      ((zeroSpanLoop l i cur lng).2 = 0 ∨
        spanZeros full (zeroSpanLoop l i cur lng).1 (zeroSpanLoop l i cur lng).2) := by
  intro l
  induction l with
  | nil =>
    intro full i cur lng _ _ _ hl
    simpa [zeroSpanLoop] using hl
  | cons seg rest ih =>
    intro full i cur lng hdrop hi hc hl
    have hne : full.drop i ≠ [] := by rw [← hdrop]; simp
    have hilt : i < full.length := by
      by_contra h
      push_neg at h
      exact hne (List.drop_eq_nil_of_le h)
    have hrest : rest = full.drop (i + 1) := by
      have h1 := List.drop_drop 1 i full
      rw [← hdrop] at h1
      simpa using h1
    have hsegE : full[i]? = some seg := by
      have h0 : (full.drop i)[0]? = some seg := by rw [← hdrop]; simp
      have h1 : (full.drop i)[0]? = full[i + 0]? := List.getElem?_drop full i 0
      rw [h1] at h0
      simpa using h0
    rw [zeroSpanLoop]
    by_cases hz : seg = 0
    · rw [if_pos hz]
      have hc2 : ((if cur.2 = 0 then i else cur.1, cur.2 + 1) : Nat × Nat).2 = 0 ∨
          ((if cur.2 = 0 then i else cur.1, cur.2 + 1).1 +
            (if cur.2 = 0 then i else cur.1, cur.2 + 1).2 = i + 1 ∧
          spanZeros full (if cur.2 = 0 then i else cur.1, cur.2 + 1).1
            (if cur.2 = 0 then i else cur.1, cur.2 + 1).2) := by
        right
        by_cases hc0 : cur.2 = 0
        · refine ⟨by simp [hc0], ⟨by simp [hc0]; omega, ?_⟩⟩
          intro k hk
          simp only [hc0, if_pos] at hk ⊢
          have hk0 : k = 0 := by omega
          subst hk0
          simp [List.getD_eq_getElem?_getD, hsegE, hz]
        · rcases hc with h | ⟨hsum, hle2, hzs⟩
          · exact absurd h hc0
          · refine ⟨by simp [hc0]; omega, ⟨by simp [hc0]; omega, ?_⟩⟩
            intro k hk
            simp only [hc0, if_neg, if_false] at hk ⊢
            by_cases hkk : k < cur.2
            · exact hzs k hkk
            · have hke : k = cur.2 := by omega
              subst hke
              rw [hsum]
              simp [List.getD_eq_getElem?_getD, hsegE, hz]
      have hl2 : ((if lng.2 < cur.2 + 1 then
            ((if cur.2 = 0 then i else cur.1, cur.2 + 1) : Nat × Nat) else lng)).2 = 0 ∨
          spanZeros full (if lng.2 < cur.2 + 1 then
            (if cur.2 = 0 then i else cur.1, cur.2 + 1) else lng).1
            (if lng.2 < cur.2 + 1 then
              (if cur.2 = 0 then i else cur.1, cur.2 + 1) else lng).2 := by
        split
        · rcases hc2 with h | ⟨_, hzs⟩
          · simp at h
          · exact Or.inr hzs
        · exact hl
      have := ih full (i + 1) (if cur.2 = 0 then i else cur.1, cur.2 + 1)
        (if lng.2 < cur.2 + 1 then (if cur.2 = 0 then i else cur.1, cur.2 + 1) else lng)
        hrest (by omega) hc2 hl2
      simpa using this
    · rw [if_neg hz]
      exact ih full (i + 1) (0, 0) lng hrest (by omega) (Or.inl rfl) hl

theorem span_decomp (segs : List Nat) (st len : Nat)
    (hs : spanZeros segs st len) :
    segs = segs.take st ++ List.replicate len 0 ++ segs.drop (st + len) := by
  obtain ⟨hle, hz⟩ := hs
  have h3 : (segs.drop st).drop len = segs.drop (st + len) := by
    rw [List.drop_drop]
  have h4 : (segs.drop st).take len = List.replicate len 0 := by
    apply List.eq_replicate_iff.mpr
    constructor
    · rw [List.length_take, List.length_drop]
      omega
    · intro b hb
      obtain ⟨k, hk, hbk⟩ := List.mem_iff_getElem.mp hb
      have hk2 : k < len := by
        have := hk
        simp [List.length_take, List.length_drop] at this
        omega
      have hk3 : st + k < segs.length := by omega
      have hval : ((segs.drop st).take len)[k] = segs[st + k] := by
        rw [List.getElem_take]
        rw [List.getElem_drop]
      have := hz k hk2
      rw [List.getD_eq_getElem?_getD] at this
      rw [List.getElem?_eq_getElem hk3] at this
      simp at this
      rw [← hbk, hval, this]
  calc segs = segs.take st ++ segs.drop st := (List.take_append_drop st segs).symm
    _ = segs.take st ++ ((segs.drop st).take len ++ (segs.drop st).drop len) := by
        rw [List.take_append_drop len (segs.drop st)]
    _ = segs.take st ++ (List.replicate len 0 ++ segs.drop (st + len)) := by
        rw [h4, h3]
    _ = segs.take st ++ List.replicate len 0 ++ segs.drop (st + len) := by
        rw [List.append_assoc]

/-! ### The IPv6 `Display`/`FromStr` round-trip -/

theorem parseIpv6Core_subslice (segs : List Nat) (h8 : segs.length = 8)
    (hlt : ∀ g ∈ segs, g < 65536) :
    parseIpv6Core (fmtSubslice segs) = some (segs, []) := by
  have h := readGroups_render segs 0 8 [] [] (by omega) hlt (by simp) (Or.inl rfl)
  rw [if_pos rfl] at h
  simp only [List.append_nil, List.reverse_nil, List.nil_append] at h
  simp [parseIpv6Core, h, h8]

theorem parseIpv6Core_compressed (segs : List Nat) (h8 : segs.length = 8)
    (hlt : ∀ g ∈ segs, g < 65536) (st len : Nat) (hlen2 : 2 ≤ len)
    (hspan : spanZeros segs st len) :
    parseIpv6Core (fmtSubslice (segs.take st) ++ ':' :: ':' ::
      fmtSubslice (segs.drop (st + len))) = some (segs, []) := by
  have hstle : st + len ≤ 8 := by
    have := hspan.1
    omega
  have hheadlen : (segs.take st).length = st := by
    rw [List.length_take]
    omega
  have htaillen : (segs.drop (st + len)).length = 8 - st - len := by
    rw [List.length_drop]
    omega
  have hheadlt : ∀ g ∈ segs.take st, g < 65536 :=
    fun g hg => hlt g (List.mem_of_mem_take hg)
  have htaillt : ∀ g ∈ segs.drop (st + len), g < 65536 :=
    fun g hg => hlt g (List.mem_of_mem_drop hg)
  have hdotrest : '.' ∉ (':' :: ':' :: fmtSubslice (segs.drop (st + len))) := by
    intro hx
    rcases List.mem_cons.mp hx with h | h
    · simp at h
    · rcases List.mem_cons.mp h with h2 | h2
      · simp at h2
      · exact fmtSubslice_no_dot _ h2
  have hstop : stopStr (':' :: ':' :: fmtSubslice (segs.drop (st + len))) :=
    Or.inr ⟨':' :: fmtSubslice (segs.drop (st + len)), rfl,
      Or.inr ⟨fmtSubslice (segs.drop (st + len)), rfl⟩⟩
  have hhead := readGroups_render (segs.take st) 0 8 []
    (':' :: ':' :: fmtSubslice (segs.drop (st + len)))
    (by omega) hheadlt hdotrest hstop
  rw [if_pos rfl] at hhead
  simp only [List.reverse_nil, List.nil_append] at hhead
  have htail := readGroups_render (segs.drop (st + len)) 0 (8 - (st + 1)) [] []
    (by omega) htaillt (by simp) (Or.inl rfl)
  rw [if_pos rfl] at htail
  simp only [List.append_nil, List.reverse_nil, List.nil_append] at htail
  have hstne : ¬ (st = 8) := by omega
  have hexp1 : expectChar ':' (':' :: ':' :: fmtSubslice (segs.drop (st + len))) =
      some (':' :: fmtSubslice (segs.drop (st + len))) := by simp [expectChar]
  have hexp2 : expectChar ':' (':' :: fmtSubslice (segs.drop (st + len))) =
      some (fmtSubslice (segs.drop (st + len))) := by simp [expectChar]
  have harith : 8 - st - (8 - st - len) = len := by omega
  have hdecomp := (span_decomp segs st len hspan).symm
  have htail7 : readGroupsAux 0 (7 - st) (fmtSubslice (segs.drop (st + len))) [] =
      (segs.drop (st + len), [], false) := by
    have h9 : 8 - (st + 1) = 7 - st := by omega
    rw [← h9]
    exact htail
  rw [parseIpv6Core, hhead]
  simp [hheadlen, hstne, hexp1, hexp2, htail, htail7, htaillen, harith, hdecomp]

theorem readIpv4_nonDigit (c : Char) (t : List Char)
    (h : digitVal 10 c = none) : readIpv4 (c :: t) = none := by
  simp [readIpv4, readNumber, readNumLoop, h]

theorem parseIpv6Core_mapped (s6 s7 : Nat) (hs6 : s6 < 65536) (hs7 : s7 < 65536) :
    parseIpv6Core (':' :: ':' :: 'f' :: 'f' :: 'f' :: 'f' :: ':' ::
      formatIpv4 [s6 / 256, s6 % 256, s7 / 256, s7 % 256]) =
    some ([0, 0, 0, 0, 0, 0xffff, s6, s7], []) := by
  have hstop : stopStr (':' :: ':' :: 'f' :: 'f' :: 'f' :: 'f' :: ':' ::
      formatIpv4 [s6 / 256, s6 % 256, s7 / 256, s7 % 256]) :=
    Or.inr ⟨_, rfl, Or.inr ⟨_, rfl⟩⟩
  have hhead := readGroupsAux_stop 0 8 (':' :: ':' :: 'f' :: 'f' :: 'f' :: 'f' :: ':' ::
      formatIpv4 [s6 / 256, s6 % 256, s7 / 256, s7 % 256]) [] hstop
  have hne8 : ¬ ((0 : Nat) = 8) := by omega
  have hexp1 : expectChar ':' (':' :: ':' :: 'f' :: 'f' :: 'f' :: 'f' :: ':' ::
      formatIpv4 [s6 / 256, s6 % 256, s7 / 256, s7 % 256]) =
      some (':' :: 'f' :: 'f' :: 'f' :: 'f' :: ':' ::
        formatIpv4 [s6 / 256, s6 % 256, s7 / 256, s7 % 256]) := by simp [expectChar]
  have hexp2 : expectChar ':' (':' :: 'f' :: 'f' :: 'f' :: 'f' :: ':' ::
      formatIpv4 [s6 / 256, s6 % 256, s7 / 256, s7 % 256]) =
      some ('f' :: 'f' :: 'f' :: 'f' :: ':' ::
        formatIpv4 [s6 / 256, s6 % 256, s7 / 256, s7 % 256]) := by simp [expectChar]
  have hffff : natHexChars 65535 = ['f', 'f', 'f', 'f'] := by decide
  have hhex : readNumber 16 (some 4) 65536 true ('f' :: 'f' :: 'f' :: 'f' :: ':' ::
      formatIpv4 [s6 / 256, s6 % 256, s7 / 256, s7 % 256]) =
      some (65535, ':' :: formatIpv4 [s6 / 256, s6 % 256, s7 / 256, s7 % 256]) := by
    have := readNumber_hex 65535 (by omega)
      (':' :: formatIpv4 [s6 / 256, s6 % 256, s7 / 256, s7 % 256])
      (Or.inr ⟨':', _, rfl, rfl⟩)
    rw [hffff] at this
    simpa using this
  have hiv4 : readIpv4 ('f' :: 'f' :: 'f' :: 'f' :: ':' ::
      formatIpv4 [s6 / 256, s6 % 256, s7 / 256, s7 % 256]) = none :=
    readIpv4_nonDigit 'f' _ rfl
  have hrd : readIpv4 (formatIpv4 [s6 / 256, s6 % 256, s7 / 256, s7 % 256]) =
      some ([s6 / 256, s6 % 256, s7 / 256, s7 % 256], []) :=
    readIpv4_render _ _ _ _ (by omega) (by omega) (by omega) (by omega)
  have hstep1 : readGroupsAux 0 (8 - (0 + 1)) ('f' :: 'f' :: 'f' :: 'f' :: ':' ::
      formatIpv4 [s6 / 256, s6 % 256, s7 / 256, s7 % 256]) [] =
      ([65535, s6, s7], [], true) := by
    rw [show (8 - (0 + 1) : Nat) = 6 + 1 from rfl, readGroupsAux]
    have h1 : (if 1 ≤ 6 then readSepThen ':' 0 readIpv4
        ('f' :: 'f' :: 'f' :: 'f' :: ':' ::
          formatIpv4 [s6 / 256, s6 % 256, s7 / 256, s7 % 256]) else none) = none := by
      rw [if_pos (by omega)]
      simp [readSepThen, hiv4]
    have h2 : readSepThen ':' 0 (readNumber 16 (some 4) 65536 true)
        ('f' :: 'f' :: 'f' :: 'f' :: ':' ::
          formatIpv4 [s6 / 256, s6 % 256, s7 / 256, s7 % 256]) =
        some (65535, ':' :: formatIpv4 [s6 / 256, s6 % 256, s7 / 256, s7 % 256]) := by
      simp [readSepThen, hhex]
    simp only [h1, h2]
    rw [show (6 : Nat) = 5 + 1 from rfl, readGroupsAux]
    have h3 : (if 1 ≤ 5 then readSepThen ':' (0 + 1) readIpv4
        (':' :: formatIpv4 [s6 / 256, s6 % 256, s7 / 256, s7 % 256]) else none) =
        some ([s6 / 256, s6 % 256, s7 / 256, s7 % 256], []) := by
      rw [if_pos (by omega)]
      simp [readSepThen, expectChar, hrd]
    simp only [h3]
    have hv6 : s6 / 256 * 256 + s6 % 256 = s6 := by omega
    have hv7 : s7 / 256 * 256 + s7 % 256 = s7 := by omega
    simp [hv6, hv7]
  have hrep : List.replicate (8 - 0 - 3) (0 : Nat) = [0, 0, 0, 0, 0] := rfl
  rw [parseIpv6Core, hhead]
  simp [hne8, hexp1, hexp2, hstep1, hrep]

/-- Rust's `Ipv6Addr::from_str` inverts `Ipv6Addr`'s `Display` on every
8-segment address. -/
theorem parseIpv6Full_format (segs : List Nat) (h8 : segs.length = 8)
    (hlt : ∀ g ∈ segs, g < 65536) :
    parseIpv6Full (formatIpv6 segs) = some segs := by
  by_cases hm : segs.take 6 = [0, 0, 0, 0, 0, 0xffff]
  · have hdlen : (segs.drop 6).length = 2 := by rw [List.length_drop, h8]
    obtain ⟨s6, s7, hd⟩ : ∃ s6 s7, segs.drop 6 = [s6, s7] := by
      rcases hx : segs.drop 6 with _ | ⟨x, _ | ⟨y, _ | ⟨z, r⟩⟩⟩
      · rw [hx] at hdlen; simp at hdlen
      · rw [hx] at hdlen; simp at hdlen
      · exact ⟨x, y, rfl⟩
      · rw [hx] at hdlen; simp at hdlen
    have hsegs : segs = [0, 0, 0, 0, 0, 0xffff, s6, s7] := by
      calc segs = segs.take 6 ++ segs.drop 6 := (List.take_append_drop 6 segs).symm
        _ = [0, 0, 0, 0, 0, 0xffff] ++ [s6, s7] := by rw [hm, hd]
        _ = [0, 0, 0, 0, 0, 0xffff, s6, s7] := rfl
    have hs6 : s6 < 65536 := hlt s6 (by rw [hsegs]; simp)
    have hs7 : s7 < 65536 := hlt s7 (by rw [hsegs]; simp)
    have hfmt : formatIpv6 segs = ':' :: ':' :: 'f' :: 'f' :: 'f' :: 'f' :: ':' ::
        formatIpv4 [s6 / 256, s6 % 256, s7 / 256, s7 % 256] := by
      rw [formatIpv6, if_pos hm, hsegs]
      rfl
    rw [hfmt]
    rw [parseIpv6Full, parseIpv6Core_mapped s6 s7 hs6 hs7]
    rw [hsegs]
  · by_cases hcomp : 1 < (zeroSpanLoop segs 0 (0, 0) (0, 0)).2
    · have hvalid := zeroSpanLoop_valid segs segs 0 (0, 0) (0, 0) (by simp)
        (by omega) (Or.inl rfl) (Or.inl rfl)
      have hspan : spanZeros segs (zeroSpanLoop segs 0 (0, 0) (0, 0)).1
          (zeroSpanLoop segs 0 (0, 0) (0, 0)).2 := by
        rcases hvalid with h | h
        · omega
        · exact h
      have hfmt : formatIpv6 segs =
          fmtSubslice (segs.take (zeroSpanLoop segs 0 (0, 0) (0, 0)).1) ++ ':' :: ':' ::
          fmtSubslice (segs.drop ((zeroSpanLoop segs 0 (0, 0) (0, 0)).1 +
            (zeroSpanLoop segs 0 (0, 0) (0, 0)).2)) := by
        rw [formatIpv6, if_neg hm]
        rw [if_pos hcomp]
      rw [hfmt]
      rw [parseIpv6Full, parseIpv6Core_compressed segs h8 hlt
        (zeroSpanLoop segs 0 (0, 0) (0, 0)).1 (zeroSpanLoop segs 0 (0, 0) (0, 0)).2
        (by omega) hspan]
    · have hfmt : formatIpv6 segs = fmtSubslice segs := by
        rw [formatIpv6, if_neg hm]
        rw [if_neg hcomp]
      rw [hfmt]
      rw [parseIpv6Full, parseIpv6Core_subslice segs h8 hlt]

/-! ### Resolution of the handshake's `host:port` target string -/

theorem fmtSubslice_head (gs : List Nat) :
    gs = [] ∨ ∃ d tl, d < 16 ∧ fmtSubslice gs = hexDigitChar d :: tl := by
  cases gs with
  | nil => exact Or.inl rfl
  | cons g gs =>
    obtain ⟨d0, tl0, hcons, hd0, _⟩ := natDigitsBE_head 16 g (by omega)
    refine Or.inr ⟨d0, tl0.map hexDigitChar ++ renderTail gs, hd0, ?_⟩
    rw [fmtSubslice, natHexChars, hcons]
    rfl

theorem formatIpv6_dot_or_colon (segs : List Nat) :
    (∃ t, formatIpv6 segs = ':' :: t) ∨ '.' ∉ formatIpv6 segs := by
  rw [formatIpv6]
  by_cases hm : segs.take 6 = [0, 0, 0, 0, 0, 0xffff]
  · rw [if_pos hm]
    exact Or.inl ⟨_, rfl⟩
  · rw [if_neg hm]
    by_cases hcomp : 1 < (zeroSpanLoop segs 0 (0, 0) (0, 0)).2
    · rw [if_pos hcomp]
      rcases fmtSubslice_head (segs.take (zeroSpanLoop segs 0 (0, 0) (0, 0)).1) with
        h | ⟨d, tl, hd, hh⟩
      · rw [h]
        exact Or.inl ⟨_, rfl⟩
      · right
        intro hx
        rcases List.mem_append.mp hx with h1 | h1
        · exact fmtSubslice_no_dot _ h1
        · rcases List.mem_cons.mp h1 with h2 | h2
          · simp at h2
          · rcases List.mem_cons.mp h2 with h3 | h3
            · simp at h3
            · exact fmtSubslice_no_dot _ h3
    · rw [if_neg hcomp]
      exact Or.inr (fmtSubslice_no_dot segs)

theorem readIpv4_formatIpv6_app (segs : List Nat) (X : List Char) (hX : '.' ∉ X) :
    readIpv4 (formatIpv6 segs ++ X) = none := by
  rcases formatIpv6_dot_or_colon segs with ⟨t, ht⟩ | hnd
  · rw [ht]
    exact readIpv4_colon (t ++ X)
  · apply readIpv4_no_dot
    intro h
    rcases List.mem_append.mp h with h1 | h1
    · exact hnd h1
    · exact hX h1

theorem formatIpv6_head (segs : List Nat) (h8 : segs.length = 8) :
    ∃ c t, formatIpv6 segs = c :: t ∧ c ≠ '[' := by
  rw [formatIpv6]
  by_cases hm : segs.take 6 = [0, 0, 0, 0, 0, 0xffff]
  · rw [if_pos hm]
    exact ⟨':', _, rfl, by decide⟩
  · rw [if_neg hm]
    by_cases hcomp : 1 < (zeroSpanLoop segs 0 (0, 0) (0, 0)).2
    · rw [if_pos hcomp]
      rcases fmtSubslice_head (segs.take (zeroSpanLoop segs 0 (0, 0) (0, 0)).1) with
        h | ⟨d, tl, hd, hh⟩
      · rw [h]
        exact ⟨':', _, rfl, by decide⟩
      · rw [hh]
        exact ⟨hexDigitChar d, _, rfl, (hexChar_ne d hd).2.2.1⟩
    · rw [if_neg hcomp]
      rcases fmtSubslice_head segs with h | ⟨d, tl, hd, hh⟩
      · rw [h] at h8
        rw [h]
        simp at h8
      · rw [hh]
        exact ⟨hexDigitChar d, _, rfl, (hexChar_ne d hd).2.2.1⟩

theorem rsplit_none (l : List Char) (h : ':' ∉ l) : rsplitOnceColon l = none := by
  induction l with
  | nil => rfl
  | cons c t ih =>
    have hc : ¬ (c = ':') := fun he => h (he ▸ List.mem_cons_self c t)
    have ht : ':' ∉ t := fun hx => h (List.mem_cons_of_mem c hx)
    rw [rsplitOnceColon, ih ht]
    simp [hc]

theorem rsplit_append (host portStr : List Char) (hp : ':' ∉ portStr) :
    rsplitOnceColon (host ++ ':' :: portStr) = some (host, portStr) := by
  induction host with
  | nil =>
    rw [List.nil_append, rsplitOnceColon, rsplit_none portStr hp]
    simp
  | cons c t ih =>
    rw [List.cons_append, rsplitOnceColon, ih]

/-- Resolving the relay target built from an IPv6 host: `ToSocketAddrs`
recovers exactly the formatted segments and port. -/
theorem resolveTarget_formatIpv6 (segs : List Nat) (p : Nat)
    (h8 : segs.length = 8) (hlt : ∀ g ∈ segs, g < 65536) (hp : p < 65536) :
    resolveTarget (formatIpv6 segs ++ ':' :: natDecChars p) =
      some (.v6 segs p) := by
  have hdotp : '.' ∉ (':' :: natDecChars p) := by
    intro h
    rcases List.mem_cons.mp h with h1 | h1
    · simp at h1
    · exact natDecChars_no_dot p h1
  have hv4 : parseSocketAddrV4Full (formatIpv6 segs ++ ':' :: natDecChars p) = none := by
    rw [parseSocketAddrV4Full, readIpv4_formatIpv6_app segs _ hdotp]
  have hv6sock : parseSocketAddrV6Full (formatIpv6 segs ++ ':' :: natDecChars p) =
      none := by
    obtain ⟨c, t, hct, hcb⟩ := formatIpv6_head segs h8
    rw [parseSocketAddrV6Full, hct, List.cons_append]
    simp [expectChar, hcb]
  have hrsplit : rsplitOnceColon (formatIpv6 segs ++ ':' :: natDecChars p) =
      some (formatIpv6 segs, natDecChars p) :=
    rsplit_append _ _ (natDecChars_no_colon p)
  have hport := parseU16Dec_render p hp
  have hipv4host : parseIpv4Full (formatIpv6 segs) = none := by
    have := readIpv4_formatIpv6_app segs [] (by simp)
    rw [List.append_nil] at this
    rw [parseIpv4Full, this]
  have hipv6host := parseIpv6Full_format segs h8 hlt
  rw [resolveTarget, hv4, hv6sock, hrsplit]
  simp [hport, hipv4host, hipv6host]

/-! ### Flat-handshake computation helpers -/

theorem hsFlat_short (bs : List Nat) (h : bs.length < 2) :
    hsFlat bs = ⟨.error (.IOError .unexpectedEof), [], []⟩ := by
  match bs with
  | [] => rfl
  | [v] => rfl
  | v :: n :: r =>
    exact absurd h (by simp)

theorem hsFlat_badver (v m : Nat) (rest : List Nat) (hv : v ≠ 5) :
    hsFlat (v :: m :: rest) = ⟨.error .UnsupportedVersion, [], rest⟩ := by
  simp [hsFlat, hv]

theorem hsFlat_methods_eof (n : Nat) (ms : List Nat) (h : ms.length < n) :
    hsFlat (5 :: n :: ms) = ⟨.error .UnexpectedEOF, [], []⟩ := by
  have hn : ¬ (n ≤ ms.length) := by omega
  simp [hsFlat, hn]

theorem hsFlat_go (n : Nat) (ms rest : List Nat) (hms : ms.length = n) :
    hsFlat (5 :: n :: (ms ++ rest)) =
      ⟨(reqFlat rest).1, [5, 0], (reqFlat rest).2⟩ := by
  have hle : n ≤ (ms ++ rest).length := by
    rw [List.length_append]
    omega
  have hdrop : (ms ++ rest).drop n = rest := by
    rw [← hms, List.drop_left]
  simp only [hsFlat]
  rw [if_pos trivial, if_pos hle, hdrop]

theorem reqFlat_short (bs : List Nat) (h : bs.length < 4) :
    reqFlat bs = (.error (.IOError .unexpectedEof), []) := by
  match bs with
  | [] => rfl
  | [a] => rfl
  | [a, b] => rfl
  | [a, b, c] => rfl
  | a :: b :: c :: d :: r =>
    exact absurd h (by simp)

theorem addrFlat_other (atyp : Nat) (bs : List Nat)
    (h1 : atyp ≠ 1) (h3 : atyp ≠ 3) (h4 : atyp ≠ 4) :
    addrFlat atyp bs = (.error .UnrecognizedAddrType, bs) := by
  match atyp, h1, h3, h4 with
  | 0, _, _, _ => rfl
  | 1, h, _, _ => exact absurd rfl h
  | 2, _, _, _ => rfl
  | 3, _, h, _ => exact absurd rfl h
  | 4, _, _, h => exact absurd rfl h
  | n + 5, _, _, _ => rfl

/-! ### Claim C4 -/

/-- C4: for every input stream (any chunking, well-formed or not) and
every count, when `_read_n_bytes` runs with a buffer whose length equals
the requested count — as at every handshake call site — the accumulated
byte count never exceeds the count, so the `ExtraDataRead` branch is
unreachable. -/
theorem c4_no_overrun :
    (∀ (s : Chunks) (count nr : Nat) (acc : List Nat), nr ≤ count →
      (readLoopF (count + 1) s count count nr acc).1 ≤ count) ∧
    (∀ (s : Chunks) (buflen count : Nat), buflen = count →
      (read_n_bytes s buflen count).1 ≠ .error .ExtraDataRead) := by
  constructor
  · intro s count nr acc h
    exact readLoopF_le (count + 1) s count nr acc h
  · intro s buflen count hbc
    subst hbc
    by_cases h0 : buflen = 0
    · rw [read_n_bytes, if_pos h0]
      simp
    · rw [read_n_bytes, if_neg h0]
      have hle := readLoopF_le (buflen + 1) s buflen 0 [] (Nat.zero_le buflen)
      by_cases heq : (readLoopF (buflen + 1) s buflen buflen 0 []).1 = buflen
      · rw [if_pos heq]
        simp
      · have hlt : ¬ (buflen < (readLoopF (buflen + 1) s buflen buflen 0 []).1) := by
          omega
        rw [if_neg heq, if_neg hlt]
        simp

/-- Witness for C4 at a concrete stream and count. -/
theorem c4_no_overrun_witness :
    (readLoopF (2 + 1) [[1, 2, 3]] 2 2 1 []).1 ≤ 2 ∧
    (read_n_bytes [[1, 2, 3]] 2 2).1 ≠ .error .ExtraDataRead :=
  ⟨c4_no_overrun.1 [[1, 2, 3]] 2 1 [] (by omega),
   c4_no_overrun.2 [[1, 2, 3]] 2 2 rfl⟩

/-! ### Claim C1 -/

/-- C1 as stated is false: the greeting is read with the library
`read_exact`, so a client that closes after sending only one greeting
byte makes the handshake fail with `Socks5Error::IOError` (wrapping the
io unexpected-EOF), not with the `Socks5Error::UnexpectedEOF` variant
the claim requires for every field. -/
theorem c1_counterexample :
    (socks5_handshake [[5]]).result = .error (.IOError .unexpectedEof) ∧
    Socks5Error.IOError .unexpectedEof ≠ Socks5Error.UnexpectedEOF := by
  exact ⟨rfl, by decide⟩

/-- C1 amended: a short read surfaces as `UnexpectedEOF` exactly for the
fields read via the repo's `read_n_bytes` (method list, IPv4 address,
domain name, IPv6 address); the fields read via the library `read_exact`
(greeting, request header, domain length byte, port) surface a short
read as `IOError` wrapping unexpected-EOF.  In every case the handshake
returns an error, so no target descriptor is produced. -/
theorem c1_short_read_errors :
    (∀ s : Chunks, ChunksWF s → s.flatten.length < 2 →
      (socks5_handshake s).result = .error (.IOError .unexpectedEof)) ∧
    (∀ (s : Chunks) (n : Nat) (ms : List Nat), ChunksWF s →
      s.flatten = 5 :: n :: ms → ms.length < n →
      (socks5_handshake s).result = .error .UnexpectedEOF) ∧
    (∀ (s : Chunks) (n : Nat) (ms hdr : List Nat), ChunksWF s →
      s.flatten = 5 :: n :: (ms ++ hdr) → ms.length = n → hdr.length < 4 →
      (socks5_handshake s).result = .error (.IOError .unexpectedEof)) ∧
    (∀ (s : Chunks) (n r : Nat) (ms a : List Nat), ChunksWF s →
      s.flatten = 5 :: n :: (ms ++ 5 :: 1 :: r :: 1 :: a) → ms.length = n →
      a.length < 4 →
      (socks5_handshake s).result = .error .UnexpectedEOF) ∧
    (∀ (s : Chunks) (n r : Nat) (ms : List Nat), ChunksWF s →
      s.flatten = 5 :: n :: (ms ++ [5, 1, r, 3]) → ms.length = n →
      (socks5_handshake s).result = .error (.IOError .unexpectedEof)) ∧
    (∀ (s : Chunks) (n r len : Nat) (ms d : List Nat), ChunksWF s →
      s.flatten = 5 :: n :: (ms ++ 5 :: 1 :: r :: 3 :: len :: d) → ms.length = n →
      d.length < len →
      (socks5_handshake s).result = .error .UnexpectedEOF) ∧
    (∀ (s : Chunks) (n r : Nat) (ms a : List Nat), ChunksWF s →
      s.flatten = 5 :: n :: (ms ++ 5 :: 1 :: r :: 4 :: a) → ms.length = n →
      a.length < 16 →
      (socks5_handshake s).result = .error .UnexpectedEOF) ∧
    (∀ (s : Chunks) (n r : Nat) (ms a pr : List Nat), ChunksWF s →
      s.flatten = 5 :: n :: (ms ++ 5 :: 1 :: r :: 1 :: (a ++ pr)) → ms.length = n →
      a.length = 4 → pr.length < 2 →
      (socks5_handshake s).result = .error (.IOError .unexpectedEof)) := by
  refine ⟨?_, ?_, ?_, ?_, ?_, ?_, ?_, ?_⟩
  · intro s hwf hlen
    rw [(socks5_handshake_flat s hwf).1, hsFlat_short s.flatten hlen]
  · intro s n ms hwf hflat hlen
    rw [(socks5_handshake_flat s hwf).1, hflat, hsFlat_methods_eof n ms hlen]
  · intro s n ms hdr hwf hflat hms hlen
    rw [(socks5_handshake_flat s hwf).1, hflat, hsFlat_go n ms hdr hms,
      reqFlat_short hdr hlen]
  · intro s n r ms a hwf hflat hms hlen
    rw [(socks5_handshake_flat s hwf).1, hflat,
      hsFlat_go n ms (5 :: 1 :: r :: 1 :: a) hms]
    have hna : ¬ (4 ≤ a.length) := by omega
    simp [reqFlat, addrFlat, hna]
  · intro s n r ms hwf hflat hms
    rw [(socks5_handshake_flat s hwf).1, hflat,
      hsFlat_go n ms [5, 1, r, 3] hms]
    simp [reqFlat, addrFlat]
  · intro s n r len ms d hwf hflat hms hlen
    rw [(socks5_handshake_flat s hwf).1, hflat,
      hsFlat_go n ms (5 :: 1 :: r :: 3 :: len :: d) hms]
    have hnd : ¬ (len ≤ d.length) := by omega
    simp [reqFlat, addrFlat, hnd]
  · intro s n r ms a hwf hflat hms hlen
    rw [(socks5_handshake_flat s hwf).1, hflat,
      hsFlat_go n ms (5 :: 1 :: r :: 4 :: a) hms]
    have hna : ¬ (16 ≤ a.length) := by omega
    simp [reqFlat, addrFlat, hna]
  · intro s n r ms a pr hwf hflat hms ha hpr
    rw [(socks5_handshake_flat s hwf).1, hflat,
      hsFlat_go n ms (5 :: 1 :: r :: 1 :: (a ++ pr)) hms]
    have hle : 4 ≤ (a ++ pr).length := by
      rw [List.length_append]
      omega
    have htake : (a ++ pr).take 4 = a := by
      rw [← ha, List.take_left]
    have hdrop : (a ++ pr).drop 4 = pr := by
      rw [← ha, List.drop_left]
    have hport : portFlat pr = (.error (.IOError .unexpectedEof), []) := by
      match pr, hpr with
      | [], _ => rfl
      | [x], _ => rfl
      | x :: y :: t, hpr => exact absurd hpr (by simp)
    have hle2 : 4 ≤ a.length + pr.length := by omega
    simp [reqFlat, addrFlat, hle2, htake, hdrop, hport]

/-- Witness for C1 amended: one concrete truncated stream per field. -/
theorem c1_short_read_errors_witness :
    (socks5_handshake [[5]]).result = .error (.IOError .unexpectedEof) ∧
    (socks5_handshake [[5, 2], [9]]).result = .error .UnexpectedEOF ∧
    (socks5_handshake [[5, 0, 5, 1]]).result = .error (.IOError .unexpectedEof) ∧
    (socks5_handshake [[5, 0, 5, 1, 0, 1, 9, 9]]).result = .error .UnexpectedEOF ∧
    (socks5_handshake [[5, 0, 5, 1, 0, 3]]).result = .error (.IOError .unexpectedEof) ∧
    (socks5_handshake [[5, 0, 5, 1, 0, 3, 2, 97]]).result = .error .UnexpectedEOF ∧
    (socks5_handshake [[5, 0, 5, 1, 0, 4, 1]]).result = .error .UnexpectedEOF ∧
    (socks5_handshake [[5, 0, 5, 1, 0, 1, 9, 9, 9, 9, 0]]).result =
      .error (.IOError .unexpectedEof) :=
  ⟨c1_short_read_errors.1 [[5]] (by decide) (by decide),
   c1_short_read_errors.2.1 [[5, 2], [9]] 2 [9] (by decide) rfl (by decide),
   c1_short_read_errors.2.2.1 [[5, 0, 5, 1]] 0 [] [5, 1] (by decide) rfl rfl
     (by decide),
   c1_short_read_errors.2.2.2.1 [[5, 0, 5, 1, 0, 1, 9, 9]] 0 0 [] [9, 9]
     (by decide) rfl rfl (by decide),
   c1_short_read_errors.2.2.2.2.1 [[5, 0, 5, 1, 0, 3]] 0 0 [] (by decide) rfl rfl,
   c1_short_read_errors.2.2.2.2.2.1 [[5, 0, 5, 1, 0, 3, 2, 97]] 0 0 2 [] [97]
     (by decide) rfl rfl (by decide),
   c1_short_read_errors.2.2.2.2.2.2.1 [[5, 0, 5, 1, 0, 4, 1]] 0 0 [] [1]
     (by decide) rfl rfl (by decide),
   c1_short_read_errors.2.2.2.2.2.2.2 [[5, 0, 5, 1, 0, 1, 9, 9, 9, 9, 0]] 0 0 []
     [9, 9, 9, 9] [0] (by decide) rfl rfl rfl (by decide)⟩

/-! ### Claim C5 -/

/-- C5: whenever the greeting version byte is 5 and the declared method
list of length `n` is fully received, the handshake writes exactly the
two bytes `[5, 0]` and proceeds to the request phase on the remaining
bytes — whatever methods `ms` offers (it is never inspected), with no
negotiation-failure path. -/
theorem c5_method_selection (s : Chunks) (n : Nat) (ms rest : List Nat)
    (hwf : ChunksWF s) (hflat : s.flatten = 5 :: n :: (ms ++ rest))
    (hms : ms.length = n) :
    (socks5_handshake s).written = [5, 0] ∧
    (socks5_handshake s).result = (reqFlat rest).1 ∧
    (socks5_handshake s).rest.flatten = (reqFlat rest).2 := by
  have h := socks5_handshake_flat s hwf
  rw [h.1, h.2.1, h.2.2, hflat, hsFlat_go n ms rest hms]
  exact ⟨rfl, rfl, rfl⟩

/-- Witness for C5: a method list not offering no-auth (only 0x02,
GSSAPI 0x01) still gets the `[5, 0]` selection reply. -/
theorem c5_method_selection_witness :
    (socks5_handshake [[5, 2, 1, 2, 7]]).written = [5, 0] ∧
    (socks5_handshake [[5, 2, 1, 2, 7]]).result = (reqFlat [7]).1 ∧
    (socks5_handshake [[5, 2, 1, 2, 7]]).rest.flatten = (reqFlat [7]).2 :=
  c5_method_selection [[5, 2, 1, 2, 7]] 2 [1, 2] [7] (by decide) rfl rfl

/-! ### Claim C6 -/

/-- C6: an address-type byte outside `{1, 3, 4}` makes the handshake
fail with `UnrecognizedAddrType`, and the per-connection body never
invokes the relay engine (`handle_connection` is `none`), so no
outbound connection is attempted. -/
theorem c6_unrecognized_atyp (s : Chunks) (env : ForwardEnv)
    (n r atyp : Nat) (ms rest : List Nat) (hwf : ChunksWF s)
    (hflat : s.flatten = 5 :: n :: (ms ++ 5 :: 1 :: r :: atyp :: rest))
    (hms : ms.length = n)
    (h1 : atyp ≠ 1) (h3 : atyp ≠ 3) (h4 : atyp ≠ 4) :
    (socks5_handshake s).result = .error .UnrecognizedAddrType ∧
    handle_connection s env = none := by
  have hres : (socks5_handshake s).result = .error .UnrecognizedAddrType := by
    rw [(socks5_handshake_flat s hwf).1, hflat,
      hsFlat_go n ms (5 :: 1 :: r :: atyp :: rest) hms]
    simp [reqFlat, addrFlat_other atyp rest h1 h3 h4]
  refine ⟨hres, ?_⟩
  rw [handle_connection, hres]

/-- Witness for C6 at ATYP = 9. -/
theorem c6_unrecognized_atyp_witness :
    (socks5_handshake [[5, 0, 5, 1, 0, 9, 1, 2]]).result =
      .error .UnrecognizedAddrType ∧
    handle_connection [[5, 0, 5, 1, 0, 9, 1, 2]]
      ⟨.ok (), .ok (.v4 [127, 0, 0, 1] 80), .ok (), .ok 3, .ok 4, .ok (), .ok ()⟩ =
      none :=
  c6_unrecognized_atyp [[5, 0, 5, 1, 0, 9, 1, 2]]
    ⟨.ok (), .ok (.v4 [127, 0, 0, 1] 80), .ok (), .ok 3, .ok 4, .ok (), .ok ()⟩
    0 0 9 [] [1, 2] (by decide) rfl rfl (by decide) (by decide) (by decide)

/-! ### Claim C8 -/

/-- C8: at both version checkpoints a byte other than 5 aborts with
`UnsupportedVersion`: a bad greeting version aborts before anything is
written and before any further byte is consumed (the unread remainder
is exactly the stream after the two greeting bytes); a bad
request-header version aborts after only the method-selection reply
`[5, 0]`, with the bytes after the 4-byte header unconsumed. -/
theorem c8_version_checks :
    (∀ (s : Chunks) (v m : Nat) (rest : List Nat), ChunksWF s →
      s.flatten = v :: m :: rest → v ≠ 5 →
      (socks5_handshake s).result = .error .UnsupportedVersion ∧
      (socks5_handshake s).written = [] ∧
      (socks5_handshake s).rest.flatten = rest) ∧
    (∀ (s : Chunks) (n v2 c r t : Nat) (ms rest : List Nat), ChunksWF s →
      s.flatten = 5 :: n :: (ms ++ v2 :: c :: r :: t :: rest) → ms.length = n →
      v2 ≠ 5 →
      (socks5_handshake s).result = .error .UnsupportedVersion ∧
      (socks5_handshake s).written = [5, 0] ∧
      (socks5_handshake s).rest.flatten = rest) := by
  constructor
  · intro s v m rest hwf hflat hv
    have h := socks5_handshake_flat s hwf
    rw [h.1, h.2.1, h.2.2, hflat, hsFlat_badver v m rest hv]
    exact ⟨rfl, rfl, rfl⟩
  · intro s n v2 c r t ms rest hwf hflat hms hv
    have h := socks5_handshake_flat s hwf
    rw [h.1, h.2.1, h.2.2, hflat,
      hsFlat_go n ms (v2 :: c :: r :: t :: rest) hms]
    simp [reqFlat, hv]

/-- Witness for C8: a version-4 greeting and a version-4 request
header. -/
theorem c8_version_checks_witness :
    ((socks5_handshake [[4, 1, 2]]).result = .error .UnsupportedVersion ∧
     (socks5_handshake [[4, 1, 2]]).written = [] ∧
     (socks5_handshake [[4, 1, 2]]).rest.flatten = [2]) ∧
    ((socks5_handshake [[5, 0, 4, 1, 0, 1, 7]]).result =
        .error .UnsupportedVersion ∧
     (socks5_handshake [[5, 0, 4, 1, 0, 1, 7]]).written = [5, 0] ∧
     (socks5_handshake [[5, 0, 4, 1, 0, 1, 7]]).rest.flatten = [7]) :=
  ⟨c8_version_checks.1 [[4, 1, 2]] 4 1 [2] (by decide) rfl (by decide),
   c8_version_checks.2 [[5, 0, 4, 1, 0, 1, 7]] 0 4 1 0 1 [] [7]
     (by decide) rfl rfl (by decide)⟩

/-! ### Claim C10 -/

theorem reqFlat_rsv (r1 r2 : Nat) (tail : List Nat) :
    reqFlat (5 :: 1 :: r1 :: tail) = reqFlat (5 :: 1 :: r2 :: tail) := by
  cases tail with
  | nil => rfl
  | cons atyp rest => rfl

/-- C10: two streams that agree except in the reserved third byte of
the request header are processed identically — same result, same bytes
written, same unread remainder; RSV is never inspected and a nonzero
RSV causes no error. -/
theorem c10_rsv_ignored (s1 s2 : Chunks) (n r1 r2 : Nat)
    (ms tail : List Nat) (hwf1 : ChunksWF s1) (hwf2 : ChunksWF s2)
    (hf1 : s1.flatten = 5 :: n :: (ms ++ 5 :: 1 :: r1 :: tail))
    (hf2 : s2.flatten = 5 :: n :: (ms ++ 5 :: 1 :: r2 :: tail))
    (hms : ms.length = n) :
    (socks5_handshake s1).result = (socks5_handshake s2).result ∧
    (socks5_handshake s1).written = (socks5_handshake s2).written ∧
    (socks5_handshake s1).rest.flatten = (socks5_handshake s2).rest.flatten := by
  have h1 := socks5_handshake_flat s1 hwf1
  have h2 := socks5_handshake_flat s2 hwf2
  rw [h1.1, h1.2.1, h1.2.2, h2.1, h2.2.1, h2.2.2, hf1, hf2,
    hsFlat_go n ms (5 :: 1 :: r1 :: tail) hms,
    hsFlat_go n ms (5 :: 1 :: r2 :: tail) hms,
    reqFlat_rsv r1 r2 tail]
  exact ⟨rfl, rfl, rfl⟩

/-- Witness for C10: RSV = 0 versus RSV = 0xFF on the same IPv4
request. -/
theorem c10_rsv_ignored_witness :
    (socks5_handshake [[5, 0, 5, 1, 0, 1, 8, 8, 8, 8, 0, 80]]).result =
      (socks5_handshake [[5, 0, 5, 1, 255, 1, 8, 8, 8, 8, 0, 80]]).result ∧
    (socks5_handshake [[5, 0, 5, 1, 0, 1, 8, 8, 8, 8, 0, 80]]).written =
      (socks5_handshake [[5, 0, 5, 1, 255, 1, 8, 8, 8, 8, 0, 80]]).written ∧
    (socks5_handshake [[5, 0, 5, 1, 0, 1, 8, 8, 8, 8, 0, 80]]).rest.flatten =
      (socks5_handshake [[5, 0, 5, 1, 255, 1, 8, 8, 8, 8, 0, 80]]).rest.flatten :=
  c10_rsv_ignored [[5, 0, 5, 1, 0, 1, 8, 8, 8, 8, 0, 80]]
    [[5, 0, 5, 1, 255, 1, 8, 8, 8, 8, 0, 80]] 0 0 255 []
    [1, 8, 8, 8, 8, 0, 80] (by decide) (by decide) rfl rfl rfl

/-! ### Relay-trace helpers and concrete environments -/

theorem fwdRelay_pre (pre : List FwdEv) (env : ForwardEnv) :
    ∃ t, (fwdRelay pre env).1 = pre ++ t := by
  rw [fwdRelay]
  rcases hc : env.copyC2R with e | n
  · exact ⟨[.spawned, .copiedC2R (.error e)], by simp⟩
  · rcases hl : env.shutLocalMain with e4 | u4
    · exact ⟨[.spawned, .copiedC2R (.ok n), .shutLocal], by simp⟩
    · rcases hr : env.shutRemoteMain with e5 | u5
      · exact ⟨[.spawned, .copiedC2R (.ok n), .shutLocal, .shutRemote], by simp⟩
      · exact ⟨[.spawned, .copiedC2R (.ok n), .shutLocal, .shutRemote], by simp⟩

theorem socks5_forward_head (target : List Char) (env : ForwardEnv) :
    (socks5_forward target env).1.head? = some (.connectTo target) := by
  rw [socks5_forward]
  rcases hc : env.connect with e | u
  · rfl
  · rcases hp : env.peerAddr with e2 | sa
    · obtain ⟨t, ht⟩ := fwdRelay_pre [.connectTo target] env
      rw [ht]
      rfl
    · rcases sa with ⟨ip, port⟩ | ⟨ip, port⟩ <;> rcases hw : env.writeReply with e6 | u6
      · rfl
      · obtain ⟨t, ht⟩ := fwdRelay_pre
          [.connectTo target, .wroteClient ([5, 0, 0, 1] ++ ip ++ portBE port)] env
        rw [ht]
        rfl
      · rfl
      · obtain ⟨t, ht⟩ := fwdRelay_pre
          [.connectTo target, .wroteClient ([5, 0, 0, 4] ++ ip ++ portBE port)] env
        rw [ht]
        rfl

/-- A fully successful environment: connect, IPv4 peer address, reply
write, both copies and both shutdowns succeed. -/
def envOkV4 : ForwardEnv :=
  ⟨.ok (), .ok (.v4 [10, 0, 0, 2] 443), .ok (), .ok 3, .ok 4, .ok (), .ok ()⟩

/-- Like `envOkV4` but the bound peer address is IPv6. -/
def envOkV6 : ForwardEnv :=
  ⟨.ok (), .ok (.v6 [0, 0, 0, 0, 0, 0, 0, 0, 0, 0, 0, 0, 0, 0, 0, 1] 443),
    .ok (), .ok 3, .ok 4, .ok (), .ok ()⟩

/-- Connect succeeds but `peer_addr` fails. -/
def envPeerFail : ForwardEnv :=
  ⟨.ok (), .error .notConnected, .ok (), .ok 3, .ok 4, .ok (), .ok ()⟩

/-- The outbound connect fails. -/
def envConnFail : ForwardEnv :=
  ⟨.error .connectionRefused, .ok (.v4 [10, 0, 0, 2] 443), .ok (), .ok 3,
    .ok 4, .ok (), .ok ()⟩

/-- The inline client-to-remote copy fails (peer_addr also fails, so
the relay is reached without a reply write). -/
def envCopyFail : ForwardEnv :=
  ⟨.ok (), .error .notConnected, .ok (), .error (.other 104), .ok 4,
    .ok (), .ok ()⟩

/-! ### Claim C7 -/

/-- C7: when the outbound connect fails, the relay engine returns that
failure having emitted no event besides the connect attempt — in
particular it writes no bytes at all (no SOCKS5 failure reply) to the
client before the connection is dropped. -/
theorem c7_connect_failure_silent (target : List Char) (env : ForwardEnv)
    (e : IOErrorKind) (h : env.connect = .error e) :
    socks5_forward target env = ([.connectTo target], [], .error e) ∧
    ∀ ev ∈ (socks5_forward target env).1, isWriteEv ev = false := by
  have hfwd : socks5_forward target env = ([.connectTo target], [], .error e) := by
    rw [socks5_forward, h]
  refine ⟨hfwd, ?_⟩
  intro ev hev
  rw [hfwd] at hev
  simp at hev
  rw [hev]
  rfl

/-- Witness for C7 on a connection-refused environment. -/
theorem c7_connect_failure_silent_witness :
    socks5_forward ['x'] envConnFail =
      ([.connectTo ['x']], [], .error .connectionRefused) ∧
    ∀ ev ∈ (socks5_forward ['x'] envConnFail).1, isWriteEv ev = false :=
  c7_connect_failure_silent ['x'] envConnFail .connectionRefused rfl

/-! ### Claim C2 -/

/-- C2 as stated is false: the reply write is skipped whenever
`peer_addr` fails — the `_ => ()` match arm — yet the connection was
successful and relaying still begins.  Concretely, with a successful
connect but failing `peer_addr`, the main trace contains a copy event
but no client-write event at all. -/
theorem c2_counterexample :
    (socks5_forward ['h'] envPeerFail).1 =
      [.connectTo ['h'], .spawned, .copiedC2R (.ok 3), .shutLocal,
        .shutRemote] ∧
    (∀ ev ∈ (socks5_forward ['h'] envPeerFail).1, isWriteEv ev = false) ∧
    ∃ ev ∈ (socks5_forward ['h'] envPeerFail).1, isCopyEv ev = true := by
  refine ⟨rfl, by decide, ⟨.copiedC2R (.ok 3), by decide, rfl⟩⟩

/-- C2 amended: *provided `peer_addr` succeeds* (and the write itself
does not fail), the success reply is written before any forwarding:
the main trace starts with the connect followed immediately by a
client write of exactly `[5,0,0,1] ++ ip ++ portBE port` (10 bytes)
for an IPv4 peer, or `[5,0,0,4] ++ ip ++ portBE port` (22 bytes) for
an IPv6 peer; every other event, including all copy events, comes
after.  When `peer_addr` fails no reply is written and relaying
proceeds anyway. -/
theorem c2_reply_before_relay (target : List Char) (env : ForwardEnv)
    (hconn : env.connect = .ok ()) (hwr : env.writeReply = .ok ()) :
    (∀ ip port, env.peerAddr = .ok (.v4 ip port) → ip.length = 4 →
      ([5, 0, 0, 1] ++ ip ++ portBE port).length = 10 ∧
      ∃ t, (socks5_forward target env).1 =
        .connectTo target ::
          .wroteClient ([5, 0, 0, 1] ++ ip ++ portBE port) :: t) ∧
    (∀ ip port, env.peerAddr = .ok (.v6 ip port) → ip.length = 16 →
      ([5, 0, 0, 4] ++ ip ++ portBE port).length = 22 ∧
      ∃ t, (socks5_forward target env).1 =
        .connectTo target ::
          .wroteClient ([5, 0, 0, 4] ++ ip ++ portBE port) :: t) := by
  constructor
  · intro ip port hp hlen
    refine ⟨by simp [portBE, hlen], ?_⟩
    rw [socks5_forward, hconn, hp, hwr]
    obtain ⟨t, ht⟩ := fwdRelay_pre
      [.connectTo target, .wroteClient ([5, 0, 0, 1] ++ ip ++ portBE port)] env
    exact ⟨t, ht⟩
  · intro ip port hp hlen
    refine ⟨by simp [portBE, hlen], ?_⟩
    rw [socks5_forward, hconn, hp, hwr]
    obtain ⟨t, ht⟩ := fwdRelay_pre
      [.connectTo target, .wroteClient ([5, 0, 0, 4] ++ ip ++ portBE port)] env
    exact ⟨t, ht⟩

/-- Witness for C2 amended at concrete IPv4 and IPv6 environments. -/
theorem c2_reply_before_relay_witness :
    (([5, 0, 0, 1] ++ [10, 0, 0, 2] ++ portBE 443).length = 10 ∧
     ∃ t, (socks5_forward ['h'] envOkV4).1 =
        .connectTo ['h'] ::
          .wroteClient ([5, 0, 0, 1] ++ [10, 0, 0, 2] ++ portBE 443) :: t) ∧
    (([5, 0, 0, 4] ++ [0, 0, 0, 0, 0, 0, 0, 0, 0, 0, 0, 0, 0, 0, 0, 1] ++
        portBE 443).length = 22 ∧
     ∃ t, (socks5_forward ['h'] envOkV6).1 =
        .connectTo ['h'] ::
          .wroteClient ([5, 0, 0, 4] ++
            [0, 0, 0, 0, 0, 0, 0, 0, 0, 0, 0, 0, 0, 0, 0, 1] ++
            portBE 443) :: t) :=
  ⟨(c2_reply_before_relay ['h'] envOkV4 rfl rfl).1 [10, 0, 0, 2] 443 rfl rfl,
   (c2_reply_before_relay ['h'] envOkV6 rfl rfl).2
     [0, 0, 0, 0, 0, 0, 0, 0, 0, 0, 0, 0, 0, 0, 0, 1] 443 rfl rfl⟩

/-! ### Claim C9 -/

/-- C9 as stated is false for the inline (client-to-remote) copy
direction: its two shutdown calls sit *after* the `?` on
`io::copy`, so when that copy finishes by error the main task shuts
down neither connection.  Concretely, with the inline copy failing,
the main trace ends at the copy error with no shutdown events. -/
theorem c9_counterexample :
    (socks5_forward ['h'] envCopyFail).1 =
      [.connectTo ['h'], .spawned, .copiedC2R (.error (.other 104))] ∧
    FwdEv.shutLocal ∉ (socks5_forward ['h'] envCopyFail).1 ∧
    FwdEv.shutRemote ∉ (socks5_forward ['h'] envCopyFail).1 := by
  refine ⟨rfl, by decide, by decide⟩

/-- C9 amended: once the relay phase starts, the spawned
(remote-to-client) task always performs both shutdowns, whatever its
copy returned; the inline (client-to-remote) direction performs them
only when its copy returns `Ok` — on a copy error the `?` operator
skips both shutdown calls, and the second shutdown additionally
requires the first to have succeeded. -/
theorem c9_shutdown_coordination (target : List Char) (env : ForwardEnv)
    (hspawn : FwdEv.spawned ∈ (socks5_forward target env).1) :
    (FwdEv.shutLocal ∈ (socks5_forward target env).2.1 ∧
     FwdEv.shutRemote ∈ (socks5_forward target env).2.1) ∧
    (∀ e, env.copyC2R = .error e →
      FwdEv.shutLocal ∉ (socks5_forward target env).1 ∧
      FwdEv.shutRemote ∉ (socks5_forward target env).1) ∧
    (∀ n, env.copyC2R = .ok n →
      FwdEv.shutLocal ∈ (socks5_forward target env).1) ∧
    (∀ n, env.copyC2R = .ok n → env.shutLocalMain = .ok () →
      FwdEv.shutRemote ∈ (socks5_forward target env).1) := by
  have hrel : ∃ pre, socks5_forward target env = fwdRelay pre env ∧
      FwdEv.shutLocal ∉ pre ∧ FwdEv.shutRemote ∉ pre := by
    rw [socks5_forward] at hspawn ⊢
    rcases hc : env.connect with e | u
    · simp [hc] at hspawn
    · rcases hp : env.peerAddr with e2 | sa
      · exact ⟨[.connectTo target], rfl, by simp, by simp⟩
      · rcases sa with ⟨ip, port⟩ | ⟨ip, port⟩ <;>
          rcases hw : env.writeReply with e6 | u6
        · simp [hc, hp, hw] at hspawn
        · exact ⟨[.connectTo target,
            .wroteClient ([5, 0, 0, 1] ++ ip ++ portBE port)], rfl,
            by simp, by simp⟩
        · simp [hc, hp, hw] at hspawn
        · exact ⟨[.connectTo target,
            .wroteClient ([5, 0, 0, 4] ++ ip ++ portBE port)], rfl,
            by simp, by simp⟩
  obtain ⟨pre, hfwd, hnl, hnr⟩ := hrel
  rw [hfwd]
  refine ⟨?_, ?_, ?_, ?_⟩
  · rw [fwdRelay]
    rcases hc : env.copyC2R with e | n
    · exact ⟨by simp, by simp⟩
    · rcases hl : env.shutLocalMain with e4 | u4
      · exact ⟨by simp, by simp⟩
      · rcases hr : env.shutRemoteMain with e5 | u5
        · exact ⟨by simp, by simp⟩
        · exact ⟨by simp, by simp⟩
  · intro e he
    rw [fwdRelay, he]
    constructor <;> simp [hnl, hnr]
  · intro n hn
    rw [fwdRelay, hn]
    rcases hl : env.shutLocalMain with e4 | u4
    · simp
    · rcases hr : env.shutRemoteMain with e5 | u5 <;> simp
  · intro n hn hl
    rw [fwdRelay, hn, hl]
    rcases hr : env.shutRemoteMain with e5 | u5 <;> simp

/-- Witness for C9 amended: the all-success environment (inline copy
ok: both tasks shut down both sides) and the failing-copy environment
(spawned task still shuts down both sides). -/
theorem c9_shutdown_coordination_witness :
    ((FwdEv.shutLocal ∈ (socks5_forward ['h'] envOkV4).2.1 ∧
      FwdEv.shutRemote ∈ (socks5_forward ['h'] envOkV4).2.1) ∧
     (∀ e, envOkV4.copyC2R = .error e →
       FwdEv.shutLocal ∉ (socks5_forward ['h'] envOkV4).1 ∧
       FwdEv.shutRemote ∉ (socks5_forward ['h'] envOkV4).1) ∧
     (∀ n, envOkV4.copyC2R = .ok n →
       FwdEv.shutLocal ∈ (socks5_forward ['h'] envOkV4).1) ∧
     (∀ n, envOkV4.copyC2R = .ok n → envOkV4.shutLocalMain = .ok () →
       FwdEv.shutRemote ∈ (socks5_forward ['h'] envOkV4).1)) ∧
    (FwdEv.shutLocal ∈ (socks5_forward ['h'] envCopyFail).2.1 ∧
     FwdEv.shutRemote ∈ (socks5_forward ['h'] envCopyFail).2.1) :=
  ⟨c9_shutdown_coordination ['h'] envOkV4 (by decide),
   (c9_shutdown_coordination ['h'] envCopyFail (by decide)).1⟩

/-! ### Claim C3 -/

theorem segmentsOf_length : ∀ a : List Nat, (segmentsOf a).length = a.length / 2 := by
  intro a
  match a with
  | [] => simp [segmentsOf]
  | [x] => simp [segmentsOf]
  | hi :: lo :: t =>
    have ih := segmentsOf_length t
    simp only [segmentsOf, List.length_cons, ih]
    omega

theorem segmentsOf_lt : ∀ a : List Nat, (∀ x ∈ a, x < 256) →
    ∀ g ∈ segmentsOf a, g < 65536 := by
  intro a
  match a with
  | [] => intro _ g hg; simp [segmentsOf] at hg
  | [x] => intro _ g hg; simp [segmentsOf] at hg
  | hi :: lo :: t =>
    intro hb g hg
    have hhi : hi < 256 := hb hi (by simp)
    have hlo : lo < 256 := hb lo (by simp)
    rcases List.mem_cons.mp hg with h | h
    · omega
    · exact segmentsOf_lt t (fun x hx => hb x (by simp [hx])) g h

/-- C3: a well-formed IPv6 request (ATYP 4, 16 address bytes, 2 port
bytes) produces the target string formed from those 16 octets and the
big-endian port; the address resolver turns that string back into
exactly the same eight 16-bit segments and port; and the relay engine's
first action is the outbound connect addressed to exactly that
target. -/
theorem c3_ipv6_target (s : Chunks) (env : ForwardEnv) (n r p1 p2 : Nat)
    (ms a : List Nat) (hwf : ChunksWF s)
    (hflat : s.flatten = 5 :: n :: (ms ++ 5 :: 1 :: r :: 4 :: (a ++ [p1, p2])))
    (hms : ms.length = n) (ha : a.length = 16)
    (hbytes : ∀ x ∈ a, x < 256) (hp1 : p1 < 256) (hp2 : p2 < 256) :
    (socks5_handshake s).result =
      .ok (formatIpv6 (segmentsOf a) ++ ':' :: natDecChars (p1 * 256 + p2)) ∧
    resolveTarget (formatIpv6 (segmentsOf a) ++ ':' :: natDecChars (p1 * 256 + p2)) =
      some (.v6 (segmentsOf a) (p1 * 256 + p2)) ∧
    (socks5_forward
        (formatIpv6 (segmentsOf a) ++ ':' :: natDecChars (p1 * 256 + p2))
        env).1.head? =
      some (.connectTo
        (formatIpv6 (segmentsOf a) ++ ':' :: natDecChars (p1 * 256 + p2))) := by
  refine ⟨?_, ?_, socks5_forward_head _ env⟩
  · rw [(socks5_handshake_flat s hwf).1, hflat,
      hsFlat_go n ms (5 :: 1 :: r :: 4 :: (a ++ [p1, p2])) hms]
    have hle : 16 ≤ (a ++ [p1, p2]).length := by
      rw [List.length_append]
      omega
    have htake : (a ++ [p1, p2]).take 16 = a := by
      rw [← ha, List.take_left]
    have hdrop : (a ++ [p1, p2]).drop 16 = [p1, p2] := by
      rw [← ha, List.drop_left]
    have hle2 : 16 ≤ a.length + 2 := by omega
    simp [reqFlat, addrFlat, portFlat, hle2, htake, hdrop]
  · exact resolveTarget_formatIpv6 (segmentsOf a) (p1 * 256 + p2)
      (by rw [segmentsOf_length, ha])
      (segmentsOf_lt a hbytes)
      (by omega)

/-- Witness for C3 at the address 2001:db8::1, port 80. -/
theorem c3_ipv6_target_witness :
    (socks5_handshake [[5, 0, 5, 1, 0, 4, 32, 1, 13, 184, 0, 0, 0, 0, 0, 0,
        0, 0, 0, 0, 0, 1, 0, 80]]).result =
      .ok (formatIpv6 (segmentsOf [32, 1, 13, 184, 0, 0, 0, 0, 0, 0, 0, 0,
        0, 0, 0, 1]) ++ ':' :: natDecChars (0 * 256 + 80)) ∧
    resolveTarget (formatIpv6 (segmentsOf [32, 1, 13, 184, 0, 0, 0, 0, 0, 0,
        0, 0, 0, 0, 0, 1]) ++ ':' :: natDecChars (0 * 256 + 80)) =
      some (.v6 (segmentsOf [32, 1, 13, 184, 0, 0, 0, 0, 0, 0, 0, 0, 0, 0,
        0, 1]) (0 * 256 + 80)) ∧
    (socks5_forward
        (formatIpv6 (segmentsOf [32, 1, 13, 184, 0, 0, 0, 0, 0, 0, 0, 0, 0,
          0, 0, 1]) ++ ':' :: natDecChars (0 * 256 + 80)) envOkV4).1.head? =
      some (.connectTo
        (formatIpv6 (segmentsOf [32, 1, 13, 184, 0, 0, 0, 0, 0, 0, 0, 0, 0,
          0, 0, 1]) ++ ':' :: natDecChars (0 * 256 + 80))) :=
  c3_ipv6_target
    [[5, 0, 5, 1, 0, 4, 32, 1, 13, 184, 0, 0, 0, 0, 0, 0, 0, 0, 0, 0, 0, 1,
      0, 80]]
    envOkV4 0 0 0 80 []
    [32, 1, 13, 184, 0, 0, 0, 0, 0, 0, 0, 0, 0, 0, 0, 1]
    (by decide) rfl rfl rfl (by decide) (by decide) (by decide)
